import Mathlib

/-!
Verification development for the audio-library HTML exporter
(`generate_library_html_export.py`).

The Python side (metadata extraction, cover lookup, duration formatting)
and the embedded JavaScript data-grid engine (filtering, sorting, delimited
import/export) are shallowly embedded here.  JavaScript/Python strings are
modelled as `List Char` (`Str`), JavaScript numbers occurring in records as
`Int` for the integer-typed attributes and `ℚ` for the duration, and the
platform regular-expression engine as an explicit parameter (`RegexEngine`).
-/

/-- Strings of the modelled programs are lists of characters. -/
abbrev Str := List Char

/-- Shorthand to turn a Lean string literal into a modelled string. -/
def str (s : String) : Str := s.data

/-- Whitespace recognised by `String.prototype.trim` / `str.strip`
(restricted to the ASCII whitespace actually relevant here). -/
def isWsChar (c : Char) : Bool :=
  c == ' ' || c == '\t' || c == '\n' || c == '\r'

/-- Leading-whitespace removal. -/
def dropLeadWs (l : Str) : Str := l.dropWhile isWsChar

/-- Trailing-whitespace removal. -/
def dropTrailWs (l : Str) : Str := (l.reverse.dropWhile isWsChar).reverse

/-- JavaScript `text.trim()` (and Python `str.strip()`). -/
def trimc (l : Str) : Str := dropTrailWs (dropLeadWs l)

/-- JavaScript `text.split(sep)` for a single-character separator. -/
def splitOnC (sep : Char) : Str → List Str
  | [] => [[]]
  | c :: rest =>
    if c == sep then [] :: splitOnC sep rest
    else
      match splitOnC sep rest with
      | [] => [[c]]
      | l :: ls => (c :: l) :: ls

theorem splitOnC_ne_nil (sep : Char) (l : Str) : splitOnC sep l ≠ [] := by
  cases l with
  | nil => simp [splitOnC]
  | cons c rest =>
    simp only [splitOnC]
    split
    · simp
    · split <;> simp

theorem splitOnC_length (sep : Char) (l : Str) :
    (splitOnC sep l).length = l.count sep + 1 := by
  induction l with
  | nil => simp [splitOnC]
  | cons c rest ih =>
    simp only [splitOnC]
    by_cases h : c = sep
    · subst h
      simp [List.count_cons, ih]
    · have hb : (c == sep) = false := by simp [h]
      simp only [hb, Bool.false_eq_true, if_false]
      cases hsp : splitOnC sep rest with
      | nil => exact absurd hsp (splitOnC_ne_nil sep rest)
      | cons a as =>
        rw [hsp] at ih
        simp only [List.length_cons] at ih ⊢
        simp [List.count_cons, h, ih]

/-- Splitting at an explicit separator occurrence splits the surrounding
pieces. -/
theorem splitOnC_append (sep : Char) (x y : Str) :
    splitOnC sep (x ++ sep :: y) = splitOnC sep x ++ splitOnC sep y := by
  induction x with
  | nil => simp [splitOnC]
  | cons c rest ih =>
    by_cases h : c = sep
    · subst h
      simp [splitOnC, ih]
    · have hb : (c == sep) = false := by simp [h]
      simp only [List.cons_append, splitOnC, hb, Bool.false_eq_true, if_false]
      simp only [List.append_eq]
      rw [ih]
      cases hsp2 : splitOnC sep rest with
      | nil => exact absurd hsp2 (splitOnC_ne_nil sep rest)
      | cons b bs => simp

/-- A string free of the separator splits into itself alone. -/
theorem splitOnC_of_not_mem (sep : Char) (l : Str) (h : sep ∉ l) :
    splitOnC sep l = [l] := by
  induction l with
  | nil => rfl
  | cons c rest ih =>
    have hc : ¬ c = sep := fun hc => h (by simp [hc])
    have hb : (c == sep) = false := by simp [hc]
    simp only [splitOnC, hb, Bool.false_eq_true, if_false]
    rw [ih (fun hm => h (by simp [hm]))]

/-- Digit characters. -/
def isDigitChar (c : Char) : Bool := 48 ≤ c.toNat && c.toNat ≤ 57

/-- Numeric value of a digit character (0 for non-digits). -/
def digitVal (c : Char) : Nat := c.toNat - 48

/-- The digit character of `d < 10`. -/
def digitChar (d : Nat) : Char :=
  match d with
  | 0 => '0' | 1 => '1' | 2 => '2' | 3 => '3' | 4 => '4'
  | 5 => '5' | 6 => '6' | 7 => '7' | 8 => '8' | _ => '9'

/-- Value of a digit string, most significant first. -/
def digitsVal (l : Str) : Nat := l.foldl (fun a c => a * 10 + digitVal c) 0

theorem digitsVal_append_digit (l : Str) (c : Char) :
    digitsVal (l ++ [c]) = digitsVal l * 10 + digitVal c := by
  simp [digitsVal, List.foldl_append]

/-- Decimal digits of a natural number (fuel-based so that it reduces). -/
def natDigitsAux : Nat → Nat → Str
  | 0, _ => []
  | fuel + 1, n =>
    if n < 10 then [digitChar n]
    else natDigitsAux fuel (n / 10) ++ [digitChar (n % 10)]

/-- Decimal representation of a natural number, as produced by
JavaScript `String(n)` / Python `str(n)`. -/
def natDigits (n : Nat) : Str := natDigitsAux (n + 1) n

theorem natDigitsAux_suffFuel (fuel fuel' n : Nat) (h : n < fuel) (h' : n < fuel') :
    natDigitsAux fuel n = natDigitsAux fuel' n := by
  induction fuel generalizing fuel' n with
  | zero => omega
  | succ f ih =>
    cases fuel' with
    | zero => omega
    | succ f' =>
      simp only [natDigitsAux]
      by_cases hn : n < 10
      · simp [hn]
      · have hd : n / 10 < n := Nat.div_lt_self (by omega) (by omega)
        simp only [hn, if_false]
        rw [ih f' (n / 10) (by omega) (by omega)]

theorem digitVal_digitChar (d : Nat) (h : d < 10) : digitVal (digitChar d) = d := by
  interval_cases d <;> rfl

theorem digitsVal_natDigits (n : Nat) : digitsVal (natDigits n) = n := by
  have key : ∀ fuel n, n < fuel → digitsVal (natDigitsAux fuel n) = n := by
    intro fuel
    induction fuel with
    | zero => omega
    | succ f ih =>
      intro n hn
      simp only [natDigitsAux]
      by_cases h : n < 10
      · simp only [h, if_true]
        simp [digitsVal, digitVal_digitChar n h]
      · have hd : n / 10 < n := Nat.div_lt_self (by omega) (by omega)
        simp only [h, if_false]
        rw [digitsVal_append_digit, ih (n / 10) (by omega),
          digitVal_digitChar (n % 10) (by omega)]
        omega
  exact key (n + 1) n (Nat.lt_succ_self n)

theorem isDigitChar_digitChar (d : Nat) (h : d < 10) : isDigitChar (digitChar d) = true := by
  interval_cases d <;> rfl

theorem natDigits_all_digits (n : Nat) : ∀ c ∈ natDigits n, isDigitChar c = true := by
  have key : ∀ fuel n, n < fuel → ∀ c ∈ natDigitsAux fuel n, isDigitChar c = true := by
    intro fuel
    induction fuel with
    | zero => omega
    | succ f ih =>
      intro n hn c hc
      simp only [natDigitsAux] at hc
      by_cases h : n < 10
      · simp [h] at hc
        rw [hc]; exact isDigitChar_digitChar n h
      · have hd : n / 10 < n := Nat.div_lt_self (by omega) (by omega)
        simp [h] at hc
        rcases hc with hc | hc
        · exact ih (n / 10) (by omega) c hc
        · rw [hc]; exact isDigitChar_digitChar (n % 10) (by omega)
  exact key (n + 1) n (Nat.lt_succ_self n)

theorem natDigits_ne_nil (n : Nat) : natDigits n ≠ [] := by
  show natDigitsAux (n + 1) n ≠ []
  cases hn : natDigitsAux (n + 1) n with
  | nil =>
    exfalso
    simp only [natDigitsAux] at hn
    by_cases h : n < 10
    · simp [h] at hn
    · simp [h] at hn
  | cons a as => simp

/-- All-digit test for a modelled string. -/
def allDigits (l : Str) : Bool := l.all isDigitChar

theorem isWsChar_of_digit (c : Char) (h : isDigitChar c = true) : isWsChar c = false := by
  by_contra hw
  simp only [Bool.not_eq_false] at hw
  simp only [isWsChar, Bool.or_eq_true, beq_iff_eq] at hw
  rcases hw with ((rfl | rfl) | rfl) | rfl <;> exact absurd h (by decide)

theorem dropLeadWs_of_no_ws (l : Str) (h : ∀ c ∈ l, isWsChar c = false) :
    dropLeadWs l = l := by
  cases l with
  | nil => rfl
  | cons c rest =>
    simp only [dropLeadWs, List.dropWhile_cons]
    rw [h c (by simp)]
    simp

theorem dropTrailWs_of_no_ws (l : Str) (h : ∀ c ∈ l, isWsChar c = false) :
    dropTrailWs l = l := by
  have h2 : dropLeadWs l.reverse = l.reverse :=
    dropLeadWs_of_no_ws l.reverse (fun c hc => h c (List.mem_reverse.mp hc))
  show (dropLeadWs l.reverse).reverse = l
  rw [h2, List.reverse_reverse]

theorem trimc_of_no_ws (l : Str) (h : ∀ c ∈ l, isWsChar c = false) : trimc l = l := by
  simp only [trimc]
  rw [dropLeadWs_of_no_ws l h, dropTrailWs_of_no_ws l h]

/-- JavaScript `String(n)` for an integer `n`. -/
def intToStr (n : Int) : Str :=
  if n < 0 then '-' :: natDigits n.natAbs else natDigits n.toNat

/-- JavaScript `Number(s)` restricted to integer numerals: surrounding
whitespace is ignored, the empty string converts to `0`, an optional sign
precedes a nonempty digit string; everything else (including fractional,
hexadecimal and exponent forms, which never arise from this program's own
output) is `NaN`, modelled as `none`. -/
def jsToNumberInt (s : Str) : Option Int :=
  match trimc s with
  | [] => some 0
  | c :: rest =>
    if c == '-' then
      if !rest.isEmpty && allDigits rest then some (-(digitsVal rest : Int)) else none
    else if c == '+' then
      if !rest.isEmpty && allDigits rest then some ((digitsVal rest : Int)) else none
    else
      if allDigits (c :: rest) then some ((digitsVal (c :: rest) : Int)) else none

/-- JavaScript `Number(s) || 0`: `NaN` (and `0` itself) collapse to `0`. -/
def jsNumberOr0 (s : Str) : Int := (jsToNumberInt s).getD 0

theorem natDigits_no_ws (n : Nat) : ∀ c ∈ natDigits n, isWsChar c = false :=
  fun c hc => isWsChar_of_digit c (natDigits_all_digits n c hc)

theorem natDigits_head_not_sign (n : Nat) (c : Char) (rest : Str)
    (h : natDigits n = c :: rest) : (c == '-') = false ∧ (c == '+') = false := by
  have hd : isDigitChar c = true := natDigits_all_digits n c (by rw [h]; simp)
  constructor <;> simp only [beq_eq_false_iff_ne, ne_eq] <;>
    rintro rfl <;> exact absurd hd (by decide)

theorem jsToNumberInt_natDigits (m : Nat) :
    jsToNumberInt (natDigits m) = some (m : Int) := by
  rw [jsToNumberInt]
  rw [trimc_of_no_ws (natDigits m) (natDigits_no_ws m)]
  cases h : natDigits m with
  | nil => exact absurd h (natDigits_ne_nil m)
  | cons c rest =>
    obtain ⟨h1, h2⟩ := natDigits_head_not_sign m c rest h
    simp only [h1, h2, Bool.false_eq_true, if_false]
    have hall : allDigits (c :: rest) = true := by
      rw [← h]
      simp only [allDigits, List.all_eq_true]
      exact natDigits_all_digits m
    rw [if_pos hall, ← h, digitsVal_natDigits]

/-- Printing an integer the JavaScript way and converting it back with
`Number` recovers the integer. -/
theorem jsToNumberInt_intToStr (n : Int) : jsToNumberInt (intToStr n) = some n := by
  by_cases hn : n < 0
  · simp only [intToStr, hn, if_true]
    rw [jsToNumberInt]
    have hnw : ∀ c ∈ '-' :: natDigits n.natAbs, isWsChar c = false := by
      intro c hc
      rcases List.mem_cons.mp hc with rfl | hc
      · rfl
      · exact natDigits_no_ws _ c hc
    rw [trimc_of_no_ws _ hnw]
    have hne : (natDigits n.natAbs).isEmpty = false := by
      cases h : natDigits n.natAbs with
      | nil => exact absurd h (natDigits_ne_nil _)
      | cons a as => rfl
    have hall : allDigits (natDigits n.natAbs) = true := by
      simp only [allDigits, List.all_eq_true]
      exact natDigits_all_digits _
    simp only [beq_self_eq_true, if_true, hall, hne, Bool.not_false,
      Bool.true_and, digitsVal_natDigits]
    have habs : ((n.natAbs : Int)) = -n := by omega
    rw [habs, neg_neg]
  · simp only [intToStr, hn, if_false]
    rw [jsToNumberInt_natDigits]
    rw [Int.toNat_of_nonneg (le_of_not_lt hn)]

/-- Integer floor of a rational division by a positive natural. -/
theorem floor_div_nat_floor (q : ℚ) (d : ℕ) (hd : 0 < d) :
    ⌊q / (d : ℚ)⌋ = ⌊q⌋ / (d : ℤ) := by
  have hd0 : (0 : ℚ) < (d : ℚ) := by exact_mod_cast hd
  rw [Int.floor_eq_iff]
  constructor
  · rw [le_div_iff₀ hd0]
    have h1 : (⌊q⌋ / (d : ℤ)) * (d : ℤ) ≤ ⌊q⌋ := Int.ediv_mul_le ⌊q⌋ (by omega)
    calc ((⌊q⌋ / (d : ℤ) : ℤ) : ℚ) * (d : ℚ)
        = (((⌊q⌋ / (d : ℤ)) * (d : ℤ) : ℤ) : ℚ) := by push_cast; ring
      _ ≤ ((⌊q⌋ : ℤ) : ℚ) := by exact_mod_cast h1
      _ ≤ q := Int.floor_le q
  · rw [div_lt_iff₀ hd0]
    have h2 : ⌊q⌋ + 1 ≤ (⌊q⌋ / (d : ℤ) + 1) * (d : ℤ) := by
      have hlt : ⌊q⌋ % (d : ℤ) < (d : ℤ) := Int.emod_lt_of_pos ⌊q⌋ (by omega)
      have hge : 0 ≤ ⌊q⌋ % (d : ℤ) := Int.emod_nonneg ⌊q⌋ (by omega)
      have heq : (d : ℤ) * (⌊q⌋ / (d : ℤ)) + ⌊q⌋ % (d : ℤ) = ⌊q⌋ :=
        Int.ediv_add_emod ⌊q⌋ (d : ℤ)
      nlinarith
    have h3 : ((⌊q⌋ + 1 : ℤ) : ℚ) ≤ (((⌊q⌋ / (d : ℤ) + 1) * (d : ℤ) : ℤ) : ℚ) := by
      exact_mod_cast h2
    have h4 : q < ((⌊q⌋ + 1 : ℤ) : ℚ) := by push_cast; exact Int.lt_floor_add_one q
    refine lt_of_lt_of_le h4 (le_trans h3 (le_of_eq ?_))
    push_cast
    ring

/-- Python float modulo `a % d` (floor-based, result in `[0, d)`). -/
def qmod (a : ℚ) (d : ℚ) : ℚ := a - d * ((⌊a / d⌋ : ℤ) : ℚ)

/-- Truncation toward zero, as JavaScript number-to-integer operations use. -/
def qtrunc (q : ℚ) : Int := if 0 ≤ q then ⌊q⌋ else -⌊-q⌋

/-- JavaScript `%` (remainder, sign of the dividend). -/
def jsRem (a : ℚ) (d : ℚ) : ℚ := a - d * ((qtrunc (a / d) : ℤ) : ℚ)

theorem floor_qmod_nat (q : ℚ) (d : ℕ) (hd : 0 < d) :
    ⌊qmod q (d : ℚ)⌋ = ⌊q⌋ % (d : ℤ) := by
  rw [qmod, floor_div_nat_floor q d hd]
  rw [show (d : ℚ) * ((⌊q⌋ / (d : ℤ) : ℤ) : ℚ) = (((d : ℤ) * (⌊q⌋ / (d : ℤ)) : ℤ) : ℚ) by push_cast; ring]
  rw [Int.floor_sub_int, Int.emod_def]

theorem qtrunc_of_nonneg (q : ℚ) (h : 0 ≤ q) : qtrunc q = ⌊q⌋ := by
  simp [qtrunc, h]

theorem jsRem_eq_qmod_of_nonneg (a : ℚ) (d : ℚ) (ha : 0 ≤ a) (hd : 0 < d) :
    jsRem a d = qmod a d := by
  rw [jsRem, qmod, qtrunc_of_nonneg (a / d) (div_nonneg ha (le_of_lt hd))]

/-- Zero padding to width 2 (Python `f"{n:02}"`, JS `padStart(2, '0')`). -/
def pad2 (n : Int) : Str :=
  if 0 ≤ n ∧ n < 10 then '0' :: natDigits n.toNat else intToStr n

/-- Zero padding to width 2 on naturals (for spec-side renderings). -/
def pad2n (n : Nat) : Str :=
  if n < 10 then '0' :: natDigits n else natDigits n

theorem pad2_coe (k : ℕ) : pad2 (k : ℤ) = pad2n k := by
  by_cases h : k < 10
  · rw [pad2, if_pos (by constructor <;> omega), pad2n, if_pos h]
    simp
  · rw [pad2, if_neg (by omega), pad2n, if_neg h, intToStr, if_neg (by omega)]
    simp

/-- `format_length` from the Python side (lines 89-97): seconds are a float,
modelled as a rational; `//` and `%` are floor division and modulo, `int` on
their non-negative results is the floor. -/
def format_length (seconds : ℚ) : Str :=
  if seconds = 0 then str "0:00"
  else
    let hours : Int := ⌊seconds / 3600⌋
    let minutes : Int := ⌊qmod seconds 3600 / 60⌋
    let sec : Int := ⌊qmod seconds 60⌋
    if 0 < hours then intToStr hours ++ ':' :: (pad2 minutes ++ ':' :: pad2 sec)
    else intToStr minutes ++ ':' :: pad2 sec

/-- `formatLengthJS` from the grid (lines 953-961): `Math.floor` on the
quotients, JavaScript `%` on the operands. -/
def formatLengthJS (seconds : ℚ) : Str :=
  if seconds = 0 then str "0:00"
  else
    let h : Int := ⌊seconds / 3600⌋
    let m : Int := ⌊jsRem seconds 3600 / 60⌋
    let s : Int := ⌊jsRem seconds 60⌋
    let sStr := pad2 s
    if 0 < h then intToStr h ++ ':' :: (pad2 m ++ ':' :: sStr)
    else intToStr m ++ ':' :: sStr

/-- Rendering described by the specification for a whole number of seconds:
truncate into hours/minutes/seconds; `M:SS` when the hours part is zero,
`H:MM:SS` otherwise, minutes and seconds zero-padded to width 2. -/
def formatLengthSpec (n : Nat) : Str :=
  let h := n / 3600
  let m := (n % 3600) / 60
  let s := n % 60
  if h = 0 then natDigits m ++ ':' :: pad2n s
  else natDigits h ++ ':' :: (pad2n m ++ ':' :: pad2n s)

theorem intToStr_coe_nat (k : ℕ) : intToStr (k : ℤ) = natDigits k := by
  rw [intToStr, if_neg (by omega)]
  simp

/-- On a non-negative number of seconds the Python and the JavaScript
duration formatters agree (they differ only in the modulo flavour, which
coincides for non-negative operands). -/
theorem format_length_eq_JS (q : ℚ) (h0 : 0 ≤ q) : format_length q = formatLengthJS q := by
  rw [format_length, formatLengthJS]
  by_cases hz : q = 0
  · simp [hz]
  · simp only [hz, if_false]
    rw [jsRem_eq_qmod_of_nonneg q 3600 h0 (by norm_num),
        jsRem_eq_qmod_of_nonneg q 60 h0 (by norm_num)]

theorem floor_div_3600 (q : ℚ) : ⌊q / 3600⌋ = ⌊q⌋ / 3600 := by
  have h := floor_div_nat_floor q 3600 (by norm_num)
  push_cast at h
  exact h

theorem floor_qmod_3600_div_60 (q : ℚ) : ⌊qmod q 3600 / 60⌋ = (⌊q⌋ % 3600) / 60 := by
  have h1 := floor_div_nat_floor (qmod q 3600) 60 (by norm_num)
  push_cast at h1
  have h2 := floor_qmod_nat q 3600 (by norm_num)
  push_cast at h2
  rw [h1, h2]

theorem floor_qmod_60 (q : ℚ) : ⌊qmod q 60⌋ = ⌊q⌋ % 60 := by
  have h := floor_qmod_nat q 60 (by norm_num)
  push_cast at h
  exact h

/-- On a non-negative, non-zero amount of seconds, `format_length` renders
exactly the specification's truncated hours/minutes/seconds decomposition of
the floored value. -/
theorem format_length_eq_spec (q : ℚ) (h0 : 0 ≤ q) (hne : q ≠ 0) :
    format_length q = formatLengthSpec ⌊q⌋.toNat := by
  have hfl : 0 ≤ ⌊q⌋ := Int.floor_nonneg.mpr h0
  have hNZ : ⌊q⌋ = (⌊q⌋.toNat : ℤ) := by omega
  rw [format_length, if_neg hne, formatLengthSpec]
  rw [floor_div_3600, floor_qmod_3600_div_60, floor_qmod_60, hNZ]
  rw [show ((⌊q⌋.toNat : ℤ) / 3600) = ((⌊q⌋.toNat / 3600 : ℕ) : ℤ) by
        rw [Int.ofNat_ediv]; norm_num]
  rw [show ((⌊q⌋.toNat : ℤ) % 3600 / 60) = ((⌊q⌋.toNat % 3600 / 60 : ℕ) : ℤ) by
        rw [Int.ofNat_ediv, Int.ofNat_emod]; norm_num]
  rw [show ((⌊q⌋.toNat : ℤ) % 60) = ((⌊q⌋.toNat % 60 : ℕ) : ℤ) by
        rw [Int.ofNat_emod]; norm_num]
  simp only [pad2_coe, intToStr_coe_nat, Int.toNat_natCast, Nat.cast_pos]
  by_cases hzero : ⌊q⌋.toNat / 3600 = 0
  · rw [if_neg (by omega), if_pos hzero]
  · rw [if_pos (by omega), if_neg hzero]

/-- Import-side handling of a cell destined for the `length` field
(lines 910-917): a value containing `:` is colon-split and combined as
minutes/seconds or hours/minutes/seconds, otherwise coerced by `Number`.
`NaN` outcomes (impossible for this program's own exports) are modelled
as `0`. -/
def parseLengthCell (v : Str) : ℚ :=
  if v.contains ':' then
    match (splitOnC ':' v).map (fun p => jsToNumberInt p) with
    | [a, b] => (((a.getD 0) * 60 + (b.getD 0) : ℤ) : ℚ)
    | [a, b, c] => (((a.getD 0) * 3600 + (b.getD 0) * 60 + (c.getD 0) : ℤ) : ℚ)
    | _ => 0
  else (((jsToNumberInt v).getD 0 : ℤ) : ℚ)

theorem colon_not_mem_digits (l : Str) (h : ∀ c ∈ l, isDigitChar c = true) :
    ':' ∉ l := by
  intro hm
  exact absurd (h ':' hm) (by decide)

theorem colon_not_mem_natDigits (n : ℕ) : ':' ∉ natDigits n :=
  colon_not_mem_digits _ (natDigits_all_digits n)

theorem colon_not_mem_pad2n (n : ℕ) : ':' ∉ pad2n n := by
  rw [pad2n]
  by_cases h : n < 10
  · rw [if_pos h]
    intro hm
    rcases List.mem_cons.mp hm with hc | hc
    · exact absurd hc (by decide)
    · exact colon_not_mem_natDigits n hc
  · rw [if_neg h]
    exact colon_not_mem_natDigits n

theorem digitsVal_cons_zero (l : Str) : digitsVal ('0' :: l) = digitsVal l := by
  have h : digitVal '0' = 0 := by decide
  simp [digitsVal, h]

theorem jsToNumberInt_pad2n (s : ℕ) : jsToNumberInt (pad2n s) = some (s : ℤ) := by
  rw [pad2n]
  by_cases h : s < 10
  · rw [if_pos h, jsToNumberInt]
    have hnw : ∀ c ∈ '0' :: natDigits s, isWsChar c = false := by
      intro c hc
      rcases List.mem_cons.mp hc with rfl | hc
      · rfl
      · exact natDigits_no_ws s c hc
    rw [trimc_of_no_ws _ hnw]
    have hall : allDigits ('0' :: natDigits s) = true := by
      simp only [allDigits, List.all_eq_true]
      intro c hc
      rcases List.mem_cons.mp hc with rfl | hc
      · rfl
      · exact natDigits_all_digits s c hc
    simp only [show (('0' == '-') = false) from rfl, show (('0' == '+') = false) from rfl,
      Bool.false_eq_true, if_false, hall, if_true]
    rw [digitsVal_cons_zero, digitsVal_natDigits]
  · rw [if_neg h]
    exact jsToNumberInt_natDigits s

/-- Parsing the specification's rendering of a whole number of seconds
recovers that number (duration display round trip). -/
theorem parseLengthCell_formatSpec (n : ℕ) :
    parseLengthCell (formatLengthSpec n) = (n : ℚ) := by
  rw [formatLengthSpec, parseLengthCell]
  by_cases hzero : n / 3600 = 0
  · rw [if_pos hzero]
    have hc : (natDigits (n % 3600 / 60) ++ ':' :: pad2n (n % 60)).contains ':' = true := by
      simp [List.contains_eq_any_beq]
    rw [if_pos hc]
    rw [splitOnC_append, splitOnC_of_not_mem ':' _ (colon_not_mem_natDigits _),
        splitOnC_of_not_mem ':' _ (colon_not_mem_pad2n _)]
    simp only [List.map_cons, List.map_nil, List.cons_append, List.nil_append,
      jsToNumberInt_natDigits, jsToNumberInt_pad2n, Option.getD_some]
    have h2 : ((n % 3600 / 60 : ℕ) : ℤ) * 60 + ((n % 60 : ℕ) : ℤ) = (n : ℤ) := by
      have h1 : n < 3600 := by omega
      push_cast
      omega
    exact_mod_cast h2
  · rw [if_neg hzero]
    have hc : (natDigits (n / 3600) ++ ':' ::
        (pad2n (n % 3600 / 60) ++ ':' :: pad2n (n % 60))).contains ':' = true := by
      simp [List.contains_eq_any_beq]
    rw [if_pos hc]
    rw [splitOnC_append, splitOnC_of_not_mem ':' _ (colon_not_mem_natDigits _),
        splitOnC_append, splitOnC_of_not_mem ':' _ (colon_not_mem_pad2n _),
        splitOnC_of_not_mem ':' _ (colon_not_mem_pad2n _)]
    simp only [List.map_cons, List.map_nil, List.cons_append, List.nil_append,
      jsToNumberInt_natDigits, jsToNumberInt_pad2n, Option.getD_some]
    have h2 : ((n / 3600 : ℕ) : ℤ) * 3600 + ((n % 3600 / 60 : ℕ) : ℤ) * 60 + ((n % 60 : ℕ) : ℤ)
        = (n : ℤ) := by
      push_cast
      omega
    exact_mod_cast h2

/-- One row of the grid.  Fields are exactly the column keys of the
JavaScript `columns` catalog, plus `length_display` (derived) and
`file_path`/`cover` from the Python extractor.  Text attributes are strings,
integer attributes integers, the duration a rational (JavaScript float);
`cover` and `file_path` are nullable (`none` models JS `null`/absent). -/
structure Record where
  cover : Option Str
  track_name : Str
  artist : Str
  album_artist : Str
  album_name : Str
  year : Int
  disc_number : Int
  track_number : Int
  genre : Str
  composer : Str
  lyricist : Str
  publisher : Str
  language : Str
  comment : Str
  rating : Int
  length : ℚ
  bpm : Int
  bitrate : Int
  sample_rate : Int
  copyright : Str
  isrc : Str
  length_display : Str
  file_path : Option Str
deriving DecidableEq

/-- A column descriptor (JS lines 462-483). -/
structure Column where
  key : String
  label : String
  visible : Bool
  type : String
deriving DecidableEq

/-- The fixed default column catalog (JS lines 461-483, in order). -/
def defaultColumns : List Column :=
  [ ⟨"cover", "Cover Art", true, "image"⟩,
    ⟨"track_name", "Title", true, "text"⟩,
    ⟨"artist", "Artist", true, "text"⟩,
    ⟨"album_artist", "Album Artist", true, "text"⟩,
    ⟨"album_name", "Album", true, "text"⟩,
    ⟨"year", "Year", true, "number"⟩,
    ⟨"disc_number", "Disc #", true, "number"⟩,
    ⟨"track_number", "Track #", true, "number"⟩,
    ⟨"genre", "Genre", true, "text"⟩,
    ⟨"composer", "Composer", true, "text"⟩,
    ⟨"lyricist", "Lyricist", true, "text"⟩,
    ⟨"publisher", "Publisher", true, "text"⟩,
    ⟨"language", "Language", true, "text"⟩,
    ⟨"comment", "Comment", true, "text"⟩,
    ⟨"rating", "Rating", true, "number"⟩,
    ⟨"length", "Length", false, "duration"⟩,
    ⟨"bpm", "BPM", false, "number"⟩,
    ⟨"bitrate", "Bitrate (kbps)", false, "number"⟩,
    ⟨"sample_rate", "Sample Rate (Hz)", false, "number"⟩,
    ⟨"copyright", "Copyright", false, "text"⟩,
    ⟨"isrc", "ISRC", false, "text"⟩ ]

/-- A dynamically-typed JavaScript value as stored in a record field. -/
inductive JSVal where
  | num (q : ℚ)
  | str (s : Str)
  | null
deriving DecidableEq

/-- Dynamic field access `item[key]`.  Unknown keys give `undefined`,
modelled as `null` (the grid code treats both alike). -/
def getField (r : Record) (k : String) : JSVal :=
  if k = "cover" then match r.cover with | some s => JSVal.str s | none => JSVal.null
  else if k = "track_name" then JSVal.str r.track_name
  else if k = "artist" then JSVal.str r.artist
  else if k = "album_artist" then JSVal.str r.album_artist
  else if k = "album_name" then JSVal.str r.album_name
  else if k = "year" then JSVal.num (r.year : ℚ)
  else if k = "disc_number" then JSVal.num (r.disc_number : ℚ)
  else if k = "track_number" then JSVal.num (r.track_number : ℚ)
  else if k = "genre" then JSVal.str r.genre
  else if k = "composer" then JSVal.str r.composer
  else if k = "lyricist" then JSVal.str r.lyricist
  else if k = "publisher" then JSVal.str r.publisher
  else if k = "language" then JSVal.str r.language
  else if k = "comment" then JSVal.str r.comment
  else if k = "rating" then JSVal.num (r.rating : ℚ)
  else if k = "length" then JSVal.num r.length
  else if k = "bpm" then JSVal.num (r.bpm : ℚ)
  else if k = "bitrate" then JSVal.num (r.bitrate : ℚ)
  else if k = "sample_rate" then JSVal.num (r.sample_rate : ℚ)
  else if k = "copyright" then JSVal.str r.copyright
  else if k = "isrc" then JSVal.str r.isrc
  else if k = "length_display" then JSVal.str r.length_display
  else if k = "file_path" then
    match r.file_path with | some s => JSVal.str s | none => JSVal.null
  else JSVal.null

/-- The numeric-column test of `processData` (JS lines 520-524). -/
def isNumKey (k : String) : Bool :=
  k == "year" || k == "track_number" || k == "disc_number" || k == "bpm" ||
  k == "bitrate" || k == "sample_rate" || k == "rating" || k == "length"

/-- ASCII lower-casing, as `toLowerCase` on the data of this program. -/
def lowerc (l : Str) : Str := l.map Char.toLower

/-- Decimal-ish rendering of a number (JS `toString`).  Only the integral
case ever arises in string position for this program's schema-typed data;
the non-integral branch is an explicit placeholder. -/
def ratToStr (q : ℚ) : Str :=
  if q.den = 1 then intToStr q.num
  else intToStr q.num ++ '/' :: natDigits q.den

/-- JS `String(v || "")` as applied to a record field value. -/
def jsStringOrEmpty (v : JSVal) : Str :=
  match v with
  | JSVal.null => []
  | JSVal.str s => s
  | JSVal.num q => if q = 0 then [] else ratToStr q

/-- JS `Number(v)` as applied to a record field value (string coercion is
unreachable for numeric-typed keys and modelled as `0`). -/
def jsNumberOfVal (v : JSVal) : ℚ :=
  match v with
  | JSVal.num q => q
  | JSVal.str _ => 0
  | JSVal.null => 0

/-- One filter rule (operator, value(s), text modifiers). -/
structure FilterRule where
  operator : String
  value : Str
  value2 : Str
  matchCase : Bool
  wholeWord : Bool
  useRegex : Bool
deriving DecidableEq

/-- The platform regular-expression engine, abstracted: `compile pattern
ignoreCase` yields a matcher (`test`) or `none` when the pattern is
rejected (`new RegExp` throws). -/
structure RegexEngine where
  compile : Str → Bool → Option (Str → Bool)

/-- JS `parseFloat` on the forms this program can produce: skip leading
whitespace, optional sign, decimal digits with an optional fraction, longest
prefix; anything with no leading digits is `NaN` (`none`). -/
def parseFloatc (s : Str) : Option ℚ :=
  let t := dropLeadWs s
  let signed : Bool × Str :=
    match t with
    | '-' :: r => (true, r)
    | '+' :: r => (false, r)
    | _ => (false, t)
  let ip := signed.2.takeWhile isDigitChar
  let rest := signed.2.dropWhile isDigitChar
  let fp :=
    match rest with
    | '.' :: r => r.takeWhile isDigitChar
    | _ => []
  if ip.isEmpty && fp.isEmpty then none
  else
    let mag : ℚ :=
      if fp.isEmpty then (digitsVal ip : ℚ)
      else (digitsVal ip : ℚ) + (digitsVal fp : ℚ) / (10 : ℚ) ^ fp.length
    some (if signed.1 then -mag else mag)

/-- The characters `escapeCSV`'s sibling escape (JS line 569) protects. -/
def regexSpecials : Str :=
  ['.', '*', '+', '?', '^', '$', Char.ofNat 123, Char.ofNat 125,
   '(', ')', '|', '[', ']', '\\']

/-- `search.replace(/[.*+?^$()|[\]\\]/g, '\\$&')` together with the brace
characters: a backslash before every regex metacharacter. -/
def escapeRegExpLit (s : Str) : Str :=
  s.flatMap (fun c => if regexSpecials.contains c then ['\\', c] else [c])

/-- JS `target.includes(search)`: substring test. -/
def includesc (sub : Str) : Str → Bool
  | [] => sub.isPrefixOf []
  | c :: rest => sub.isPrefixOf (c :: rest) || includesc sub rest

/-- The pattern `checkRule` builds for a regex rule (JS lines 556-560):
word-boundary wrapping for whole-word rules, then operator-specific
anchoring. -/
def buildRegexPattern (rule : FilterRule) : Str :=
  let p1 := if rule.wholeWord then str "\\b" ++ rule.value ++ str "\\b" else rule.value
  let p2 := if rule.operator == "eq" then '^' :: p1 ++ ['$'] else p1
  let p3 := if rule.operator == "starts" then '^' :: p2 else p2
  if rule.operator == "ends" then p3 ++ ['$'] else p3

/-- The rule evaluator `checkRule` (JS lines 539-584). -/
def checkRule (e : RegexEngine) (rule : FilterRule) (numVal : ℚ) (strVal : Str)
    (isNum : Bool) : Bool :=
  if isNum then
    match parseFloatc rule.value with
    | none => true
    | some f1 =>
      if rule.operator == "gt" then decide (numVal > f1)
      else if rule.operator == "lt" then decide (numVal < f1)
      else if rule.operator == "eq" then decide (numVal = f1)
      else if rule.operator == "between" then
        match parseFloatc rule.value2 with
        | none => false
        | some f2 => decide (numVal ≥ f1) && decide (numVal ≤ f2)
      else true
  else
    let target := strVal
    let search := rule.value
    if rule.useRegex then
      match e.compile (buildRegexPattern rule) (!rule.matchCase) with
      | none => false
      | some test =>
        let m := test target
        if rule.operator == "not_contains" then !m else m
    else
      let target2 := if !rule.matchCase then lowerc target else target
      let search2 := if !rule.matchCase then lowerc search else search
      if rule.wholeWord then
        let esc := escapeRegExpLit search2
        match e.compile (str "\\b" ++ esc ++ str "\\b") (!rule.matchCase) with
        | none => false
        | some test =>
          let m := test target2
          if rule.operator == "not_contains" then !m else m
      else
        if rule.operator == "contains" then includesc search2 target2
        else if rule.operator == "not_contains" then !(includesc search2 target2)
        else if rule.operator == "starts" then search2.isPrefixOf target2
        else if rule.operator == "ends" then search2.isSuffixOf target2
        else if rule.operator == "eq" then target2 == search2
        else true

/-- The filtering predicate of `processData` (JS lines 515-533). -/
def passesFilters (e : RegexEngine) (filters : List (String × List FilterRule))
    (item : Record) : Bool :=
  filters.all (fun kr =>
    if kr.2.isEmpty then true
    else
      let rawVal := getField item kr.1
      let isNum := isNumKey kr.1
      let numVal := if isNum then jsNumberOfVal rawVal else 0
      let strVal := jsStringOrEmpty rawVal
      kr.2.all (fun rule => checkRule e rule numVal strVal isNum))

/-- The filter stage: `audioData.filter(...)` (JS lines 515-533). -/
def applyFilters (e : RegexEngine) (filters : List (String × List FilterRule))
    (records : List Record) : List Record :=
  records.filter (passesFilters e filters)

/-- The current sort state (`currentSort`, JS line 485). -/
structure SortState where
  key : Option String
  asc : Bool
deriving DecidableEq

/-- Lines 591-592: `null`/`undefined` sort values become `''`. -/
def normSortVal (r : Record) (k : String) : JSVal :=
  match getField r k with
  | JSVal.null => JSVal.str []
  | v => v

/-- JS `<` on strings: lexicographic by code unit. -/
def strLt : Str → Str → Bool
  | [], [] => false
  | [], _ :: _ => true
  | _ :: _, [] => false
  | a :: as, b :: bs => if a < b then true else if b < a then false else strLt as bs

/-- JS `toString` of a sort value (the numeric case only arises for
mixed-typed columns, which the fixed schema excludes). -/
def jsValToStr (v : JSVal) : Str :=
  match v with
  | JSVal.num q => ratToStr q
  | JSVal.str s => s
  | JSVal.null => []

/-- The string leg of the comparator: lower-cased `toString`s compared
lexicographically, `-1`/`1`/`0` with the direction applied. -/
def cmpAsStrings (asc : Bool) (va vb : JSVal) : ℚ :=
  let sa := lowerc (jsValToStr va)
  let sb := lowerc (jsValToStr vb)
  if strLt sa sb then (if asc then -1 else 1)
  else if strLt sb sa then (if asc then 1 else -1)
  else 0

/-- The sort comparator (JS lines 588-601): numeric difference when both
values are numbers, otherwise case-insensitive string comparison; direction
flipped when descending. -/
def cmpRecords (k : String) (asc : Bool) (a b : Record) : ℚ :=
  match normSortVal a k, normSortVal b k with
  | JSVal.num x, JSVal.num y => if asc then x - y else y - x
  | va, vb => cmpAsStrings asc va vb

/-- The Boolean "less or equal" induced by the comparator, as a stable sort
consumes it. -/
def sortLe (k : String) (asc : Bool) (a b : Record) : Bool :=
  decide (cmpRecords k asc a b ≤ 0)

/-- `sortData` (JS lines 586-602): no-op without a key, otherwise a stable
sort by the comparator (ECMAScript `Array.prototype.sort` is stable;
`mergeSort` is the stable sort of the embedding). -/
def sortData (s : SortState) (l : List Record) : List Record :=
  match s.key with
  | none => l
  | some k => l.mergeSort (sortLe k s.asc)

theorem strLt_irrefl (x : Str) : strLt x x = false := by
  induction x with
  | nil => rfl
  | cons a as ih => simp [strLt, ih]

theorem strLt_asymm (x y : Str) (h : strLt x y = true) : strLt y x = false := by
  induction x generalizing y with
  | nil =>
    cases y with
    | nil => simp [strLt] at h
    | cons b bs => rfl
  | cons a as ih =>
    cases y with
    | nil => simp [strLt] at h
    | cons b bs =>
      simp only [strLt] at h ⊢
      by_cases hab : a < b
      · simp [hab, lt_asymm hab]
      · simp only [hab, if_false] at h
        by_cases hba : b < a
        · simp [hba] at h
        · simp only [hba, if_false] at h
          simp [hab, hba, ih bs h]

theorem strLt_trans (x y z : Str) (h1 : strLt x y = true) (h2 : strLt y z = true) :
    strLt x z = true := by
  induction x generalizing y z with
  | nil =>
    cases z with
    | nil =>
      cases y with
      | nil => exact h2
      | cons b bs => simp [strLt] at h2
    | cons c cs => rfl
  | cons a as ih =>
    cases y with
    | nil => simp [strLt] at h1
    | cons b bs =>
      cases z with
      | nil => simp [strLt] at h2
      | cons c cs =>
        simp only [strLt] at h1 h2 ⊢
        by_cases hab : a < b <;> by_cases hbc : b < c
        · have hac : a < c := lt_trans hab hbc
          simp [hac]
        · simp only [hbc, if_false] at h2
          by_cases hcb : c < b
          · simp [hcb] at h2
          · have hbc2 : b = c := le_antisymm (le_of_not_lt hcb) (le_of_not_lt hbc)
            subst hbc2
            simp [hab]
        · simp only [hab, if_false] at h1
          by_cases hba : b < a
          · simp [hba] at h1
          · have hab2 : a = b := le_antisymm (le_of_not_lt hba) (le_of_not_lt hab)
            subst hab2
            simp [hbc]
        · simp only [hab, if_false] at h1
          simp only [hbc, if_false] at h2
          by_cases hba : b < a
          · simp [hba] at h1
          · by_cases hcb : c < b
            · simp [hcb] at h2
            · simp only [hba, if_false] at h1
              simp only [hcb, if_false] at h2
              have hab2 : a = b := le_antisymm (le_of_not_lt hba) (le_of_not_lt hab)
              have hbc2 : b = c := le_antisymm (le_of_not_lt hcb) (le_of_not_lt hbc)
              subst hab2
              subst hbc2
              simp [lt_irrefl]
              exact ih bs cs h1 h2

theorem strLt_trichotomy (x y : Str) :
    strLt x y = true ∨ strLt y x = true ∨ x = y := by
  induction x generalizing y with
  | nil =>
    cases y with
    | nil => right; right; rfl
    | cons b bs => left; rfl
  | cons a as ih =>
    cases y with
    | nil => right; left; rfl
    | cons b bs =>
      rcases lt_trichotomy a b with hab | hab | hab
      · left; simp [strLt, hab]
      · subst hab
        rcases ih bs with h | h | h
        · left; simp [strLt, lt_irrefl, h]
        · right; left; simp [strLt, lt_irrefl, h]
        · right; right; rw [h]
      · right; left; simp [strLt, hab]

theorem strLt_eq_of_not_lt (x y : Str) (h1 : strLt x y = false) (h2 : strLt y x = false) :
    x = y := by
  rcases strLt_trichotomy x y with h | h | h
  · rw [h] at h1; cases h1
  · rw [h] at h2; cases h2
  · exact h

theorem strNotLt_trans (x y z : Str) (h1 : strLt y x = false) (h2 : strLt z y = false) :
    strLt z x = false := by
  by_contra hzx
  simp only [Bool.not_eq_false] at hzx
  rcases strLt_trichotomy x y with hx | hx | hx
  · have hzy := strLt_trans z x y hzx hx
    rw [hzy] at h2
    exact Bool.noConfusion h2
  · rw [hx] at h1
    exact Bool.noConfusion h1
  · subst hx
    rw [hzx] at h2
    exact Bool.noConfusion h2

theorem normSortVal_ne_null (r : Record) (k : String) : normSortVal r k ≠ JSVal.null := by
  unfold normSortVal
  cases h : getField r k <;> simp

theorem normSortVal_num (k : String) (hk : isNumKey k = true) (r : Record) :
    ∃ x : ℚ, normSortVal r k = JSVal.num x := by
  simp only [isNumKey, Bool.or_eq_true, beq_iff_eq] at hk
  rcases hk with (((((((hk | hk) | hk) | hk) | hk) | hk) | hk) | hk) <;>
    subst hk <;> exact ⟨_, rfl⟩

theorem getField_str_of_not_num (k : String) (hk : isNumKey k = false) (r : Record) :
    (∃ s, getField r k = JSVal.str s) ∨ getField r k = JSVal.null := by
  rw [getField]
  by_cases h1 : k = "cover"
  · rw [if_pos h1]
    rcases r.cover with _ | s
    · right; rfl
    · left; exact ⟨s, rfl⟩
  · rw [if_neg h1]
    by_cases h2 : k = "track_name"
    · rw [if_pos h2]; left; exact ⟨_, rfl⟩
    · rw [if_neg h2]
      by_cases h3 : k = "artist"
      · rw [if_pos h3]; left; exact ⟨_, rfl⟩
      · rw [if_neg h3]
        by_cases h4 : k = "album_artist"
        · rw [if_pos h4]; left; exact ⟨_, rfl⟩
        · rw [if_neg h4]
          by_cases h5 : k = "album_name"
          · rw [if_pos h5]; left; exact ⟨_, rfl⟩
          · rw [if_neg h5]
            by_cases h6 : k = "year"
            · rw [if_pos h6]; exact absurd hk (by subst h6; decide)
            · rw [if_neg h6]
              by_cases h7 : k = "disc_number"
              · rw [if_pos h7]; exact absurd hk (by subst h7; decide)
              · rw [if_neg h7]
                by_cases h8 : k = "track_number"
                · rw [if_pos h8]; exact absurd hk (by subst h8; decide)
                · rw [if_neg h8]
                  by_cases h9 : k = "genre"
                  · rw [if_pos h9]; left; exact ⟨_, rfl⟩
                  · rw [if_neg h9]
                    by_cases h10 : k = "composer"
                    · rw [if_pos h10]; left; exact ⟨_, rfl⟩
                    · rw [if_neg h10]
                      by_cases h11 : k = "lyricist"
                      · rw [if_pos h11]; left; exact ⟨_, rfl⟩
                      · rw [if_neg h11]
                        by_cases h12 : k = "publisher"
                        · rw [if_pos h12]; left; exact ⟨_, rfl⟩
                        · rw [if_neg h12]
                          by_cases h13 : k = "language"
                          · rw [if_pos h13]; left; exact ⟨_, rfl⟩
                          · rw [if_neg h13]
                            by_cases h14 : k = "comment"
                            · rw [if_pos h14]; left; exact ⟨_, rfl⟩
                            · rw [if_neg h14]
                              by_cases h15 : k = "rating"
                              · rw [if_pos h15]; exact absurd hk (by subst h15; decide)
                              · rw [if_neg h15]
                                by_cases h16 : k = "length"
                                · rw [if_pos h16]; exact absurd hk (by subst h16; decide)
                                · rw [if_neg h16]
                                  by_cases h17 : k = "bpm"
                                  · rw [if_pos h17]; exact absurd hk (by subst h17; decide)
                                  · rw [if_neg h17]
                                    by_cases h18 : k = "bitrate"
                                    · rw [if_pos h18]; exact absurd hk (by subst h18; decide)
                                    · rw [if_neg h18]
                                      by_cases h19 : k = "sample_rate"
                                      · rw [if_pos h19]; exact absurd hk (by subst h19; decide)
                                      · rw [if_neg h19]
                                        by_cases h20 : k = "copyright"
                                        · rw [if_pos h20]; left; exact ⟨_, rfl⟩
                                        · rw [if_neg h20]
                                          by_cases h21 : k = "isrc"
                                          · rw [if_pos h21]; left; exact ⟨_, rfl⟩
                                          · rw [if_neg h21]
                                            by_cases h22 : k = "length_display"
                                            · rw [if_pos h22]; left; exact ⟨_, rfl⟩
                                            · rw [if_neg h22]
                                              by_cases h23 : k = "file_path"
                                              · rw [if_pos h23]
                                                rcases r.file_path with _ | s
                                                · right; rfl
                                                · left; exact ⟨s, rfl⟩
                                              · rw [if_neg h23]
                                                right; rfl

theorem normSortVal_str (k : String) (hk : isNumKey k = false) (r : Record) :
    ∃ s : Str, normSortVal r k = JSVal.str s := by
  rcases getField_str_of_not_num k hk r with ⟨s, hs⟩ | hs
  · exact ⟨s, by rw [normSortVal, hs]⟩
  · exact ⟨[], by rw [normSortVal, hs]⟩

theorem cmpAsStrings_nonpos (asc : Bool) (va vb : JSVal) :
    (cmpAsStrings asc va vb ≤ 0) ↔
      (if asc then strLt (lowerc (jsValToStr vb)) (lowerc (jsValToStr va)) = false
       else strLt (lowerc (jsValToStr va)) (lowerc (jsValToStr vb)) = false) := by
  unfold cmpAsStrings
  by_cases h1 : strLt (lowerc (jsValToStr va)) (lowerc (jsValToStr vb)) = true
  · have h2 := strLt_asymm _ _ h1
    cases asc <;> simp [h1, h2] <;> norm_num
  · have h1f : strLt (lowerc (jsValToStr va)) (lowerc (jsValToStr vb)) = false := by
      simpa using h1
    by_cases h2 : strLt (lowerc (jsValToStr vb)) (lowerc (jsValToStr va)) = true
    · cases asc <;> simp [h1f, h2] <;> norm_num
    · have h2f : strLt (lowerc (jsValToStr vb)) (lowerc (jsValToStr va)) = false := by
        simpa using h2
      cases asc <;> simp [h1f, h2f]

theorem cmpAsStrings_eq_zero (asc : Bool) (va vb : JSVal) :
    (cmpAsStrings asc va vb = 0) ↔
      lowerc (jsValToStr va) = lowerc (jsValToStr vb) := by
  unfold cmpAsStrings
  by_cases h1 : strLt (lowerc (jsValToStr va)) (lowerc (jsValToStr vb)) = true
  · constructor
    · intro h
      cases asc <;> simp [h1] at h <;> norm_num at h
    · intro h
      rw [h, strLt_irrefl] at h1
      exact Bool.noConfusion h1
  · have h1f : strLt (lowerc (jsValToStr va)) (lowerc (jsValToStr vb)) = false := by
      simpa using h1
    by_cases h2 : strLt (lowerc (jsValToStr vb)) (lowerc (jsValToStr va)) = true
    · constructor
      · intro h
        cases asc <;> simp [h1f, h2] at h <;> norm_num at h
      · intro h
        rw [h, strLt_irrefl] at h2
        exact Bool.noConfusion h2
    · have h2f : strLt (lowerc (jsValToStr vb)) (lowerc (jsValToStr va)) = false := by
        simpa using h2
      have heq := strLt_eq_of_not_lt _ _ h1f h2f
      simp [heq, strLt_irrefl]

theorem sortLe_total (k : String) (asc : Bool) (a b : Record) :
    sortLe k asc a b || sortLe k asc b a := by
  simp only [sortLe, Bool.or_eq_true, decide_eq_true_eq]
  by_cases hk : isNumKey k
  · obtain ⟨x, hxa⟩ := normSortVal_num k hk a
    obtain ⟨y, hxb⟩ := normSortVal_num k hk b
    simp only [cmpRecords, hxa, hxb]
    rcases le_total x y with h | h <;> cases asc
    · right; simp; linarith
    · left; simp; linarith
    · left; simp; linarith
    · right; simp; linarith
  · have hk' : isNumKey k = false := by simpa using hk
    obtain ⟨sa, hxa⟩ := normSortVal_str k hk' a
    obtain ⟨sb, hxb⟩ := normSortVal_str k hk' b
    simp only [cmpRecords, hxa, hxb]
    rw [cmpAsStrings_nonpos, cmpAsStrings_nonpos]
    by_cases h1 : strLt (lowerc (jsValToStr (JSVal.str sb)))
        (lowerc (jsValToStr (JSVal.str sa))) = true
    · have h2 := strLt_asymm _ _ h1
      cases asc <;> simp [h1, h2]
    · have h1f : strLt (lowerc (jsValToStr (JSVal.str sb)))
          (lowerc (jsValToStr (JSVal.str sa))) = false := by simpa using h1
      cases asc <;> simp [h1f]

theorem sortLe_trans (k : String) (asc : Bool) (a b c : Record)
    (h1 : sortLe k asc a b) (h2 : sortLe k asc b c) : sortLe k asc a c := by
  simp only [sortLe, decide_eq_true_eq] at h1 h2 ⊢
  by_cases hk : isNumKey k
  · obtain ⟨x, hxa⟩ := normSortVal_num k hk a
    obtain ⟨y, hxb⟩ := normSortVal_num k hk b
    obtain ⟨z, hxc⟩ := normSortVal_num k hk c
    simp only [cmpRecords, hxa, hxb, hxc] at h1 h2 ⊢
    cases asc <;> simp at h1 h2 ⊢ <;> linarith
  · have hk' : isNumKey k = false := by simpa using hk
    obtain ⟨sa, hxa⟩ := normSortVal_str k hk' a
    obtain ⟨sb, hxb⟩ := normSortVal_str k hk' b
    obtain ⟨sc, hxc⟩ := normSortVal_str k hk' c
    simp only [cmpRecords, hxa, hxb, hxc] at h1 h2 ⊢
    rw [cmpAsStrings_nonpos] at h1 h2 ⊢
    cases asc <;> simp at h1 h2 ⊢
    · exact strNotLt_trans _ _ _ h2 h1
    · exact strNotLt_trans _ _ _ h1 h2

/-- The comparator is antisymmetric: swapping the operands negates it. -/
theorem cmpRecords_antisymm (k : String) (asc : Bool) (a b : Record) :
    cmpRecords k asc b a = -(cmpRecords k asc a b) := by
  by_cases hk : isNumKey k
  · obtain ⟨x, hxa⟩ := normSortVal_num k hk a
    obtain ⟨y, hxb⟩ := normSortVal_num k hk b
    simp only [cmpRecords, hxa, hxb]
    cases asc <;> simp <;> ring
  · have hk' : isNumKey k = false := by simpa using hk
    obtain ⟨sa, hxa⟩ := normSortVal_str k hk' a
    obtain ⟨sb, hxb⟩ := normSortVal_str k hk' b
    simp only [cmpRecords, hxa, hxb]
    unfold cmpAsStrings
    by_cases h1 : strLt (lowerc (jsValToStr (JSVal.str sb)))
        (lowerc (jsValToStr (JSVal.str sa))) = true
    · have h2 := strLt_asymm _ _ h1
      cases asc <;> simp [h1, h2]
    · have h1f : strLt (lowerc (jsValToStr (JSVal.str sb)))
          (lowerc (jsValToStr (JSVal.str sa))) = false := by simpa using h1
      by_cases h2 : strLt (lowerc (jsValToStr (JSVal.str sa)))
          (lowerc (jsValToStr (JSVal.str sb))) = true
      · cases asc <;> simp [h1f, h2]
      · have h2f : strLt (lowerc (jsValToStr (JSVal.str sa)))
            (lowerc (jsValToStr (JSVal.str sb))) = false := by simpa using h2
        cases asc <;> simp [h1f, h2f]

/-- Descending comparison is the negation of ascending comparison. -/
theorem cmpRecords_desc_eq_neg (k : String) (a b : Record) :
    cmpRecords k false a b = -(cmpRecords k true a b) := by
  by_cases hk : isNumKey k
  · obtain ⟨x, hxa⟩ := normSortVal_num k hk a
    obtain ⟨y, hxb⟩ := normSortVal_num k hk b
    simp only [cmpRecords, hxa, hxb]
    simp
  · have hk' : isNumKey k = false := by simpa using hk
    obtain ⟨sa, hxa⟩ := normSortVal_str k hk' a
    obtain ⟨sb, hxb⟩ := normSortVal_str k hk' b
    simp only [cmpRecords, hxa, hxb]
    unfold cmpAsStrings
    by_cases h1 : strLt (lowerc (jsValToStr (JSVal.str sa)))
        (lowerc (jsValToStr (JSVal.str sb))) = true
    · simp [h1]
    · have h1f : strLt (lowerc (jsValToStr (JSVal.str sa)))
          (lowerc (jsValToStr (JSVal.str sb))) = false := by simpa using h1
      by_cases h2 : strLt (lowerc (jsValToStr (JSVal.str sb)))
          (lowerc (jsValToStr (JSVal.str sa))) = true
      · simp [h1f, h2]
      · have h2f : strLt (lowerc (jsValToStr (JSVal.str sb)))
            (lowerc (jsValToStr (JSVal.str sa))) = false := by simpa using h2
        simp [h1f, h2f]

/-- Records tied under the comparator compare `≤` in both directions and
either sort direction. -/
theorem sortLe_of_tie (k : String) (asc : Bool) (a b : Record)
    (h : cmpRecords k true a b = 0) : sortLe k asc a b = true := by
  simp only [sortLe, decide_eq_true_eq]
  cases asc
  · rw [cmpRecords_desc_eq_neg, h]
    norm_num
  · rw [h]

/-- Ties with a common reference record are ties with each other. -/
theorem tie_transport (k : String) (a b r0 : Record)
    (h1 : cmpRecords k true a r0 = 0) (h2 : cmpRecords k true b r0 = 0) :
    cmpRecords k true a b = 0 := by
  by_cases hk : isNumKey k
  · obtain ⟨x, hxa⟩ := normSortVal_num k hk a
    obtain ⟨y, hxb⟩ := normSortVal_num k hk b
    obtain ⟨q, hxr⟩ := normSortVal_num k hk r0
    simp only [cmpRecords, hxa, hxb, hxr] at h1 h2 ⊢
    simp at h1 h2 ⊢
    linarith
  · have hk' : isNumKey k = false := by simpa using hk
    obtain ⟨sa, hxa⟩ := normSortVal_str k hk' a
    obtain ⟨sb, hxb⟩ := normSortVal_str k hk' b
    obtain ⟨s0, hxr⟩ := normSortVal_str k hk' r0
    simp only [cmpRecords, hxa, hxb, hxr] at h1 h2 ⊢
    rw [cmpAsStrings_eq_zero] at h1 h2 ⊢
    rw [h1, h2]

/-- A stable sort leaves the elements of any mutually `≤`-tied class in
their original relative order. -/
theorem mergeSort_filter_stable (le : Record → Record → Bool)
    (htrans : ∀ a b c, le a b → le b c → le a c)
    (htotal : ∀ a b, le a b || le b a)
    (p : Record → Bool) (hp : ∀ a b, p a → p b → le a b) (l : List Record) :
    (l.mergeSort le).filter p = l.filter p := by
  have hpw : (l.filter p).Pairwise (fun a b => le a b) := by
    apply List.pairwise_of_forall_mem_list
    intro a ha b hb
    exact hp a b (List.mem_filter.mp ha).2 (List.mem_filter.mp hb).2
  have hsub : List.Sublist (l.filter p) (l.mergeSort le) :=
    List.sublist_mergeSort htrans htotal hpw (List.filter_sublist l)
  have hsub2 : List.Sublist ((l.filter p).filter p) ((l.mergeSort le).filter p) :=
    List.Sublist.filter p hsub
  rw [List.filter_filter] at hsub2
  simp only [Bool.and_self] at hsub2
  have hperm : List.Perm ((l.mergeSort le).filter p) (l.filter p) :=
    List.Perm.filter p (List.mergeSort_perm l le)
  exact ((List.Sublist.eq_of_length hsub2 hperm.length_eq.symm)).symm

/-- Two permutations of the same elements that are both pairwise ordered by
an asymmetric relation are equal. -/
theorem perm_pairwise_asymm_eq (r : Record → Record → Prop)
    (hasym : ∀ a b, r a b → r b a → False) :
    ∀ l₁ l₂ : List Record, List.Perm l₁ l₂ → l₁.Pairwise r → l₂.Pairwise r → l₁ = l₂ := by
  intro l₁
  induction l₁ with
  | nil =>
    intro l₂ hp _ _
    exact hp.nil_eq
  | cons a t ih =>
    intro l₂ hp h1 h2
    cases l₂ with
    | nil => exact absurd hp.symm.nil_eq (by simp)
    | cons b t₂ =>
      by_cases hab : a = b
      · subst hab
        rw [ih t₂ hp.cons_inv h1.tail h2.tail]
      · have ha2 : a ∈ b :: t₂ := hp.subset (by simp)
        have ha2' : a ∈ t₂ := by
          rcases List.mem_cons.mp ha2 with h | h
          · exact absurd h hab
          · exact h
        have hba : r b a := (List.pairwise_cons.mp h2).1 a ha2'
        have hb1 : b ∈ a :: t := hp.symm.subset (by simp)
        have hb1' : b ∈ t := by
          rcases List.mem_cons.mp hb1 with h | h
          · exact absurd h.symm hab
          · exact h
        have hab' : r a b := (List.pairwise_cons.mp h1).1 b hb1'
        exact absurd hab' (fun h => hasym a b h hba)

theorem sortData_key_none (asc : Bool) (l : List Record) :
    sortData ⟨none, asc⟩ l = l := rfl

theorem sortData_stable_classes (k : String) (asc : Bool) (l : List Record) (r0 : Record) :
    (sortData ⟨some k, asc⟩ l).filter (fun r => decide (cmpRecords k true r r0 = 0))
      = l.filter (fun r => decide (cmpRecords k true r r0 = 0)) := by
  show ((l.mergeSort (sortLe k asc)).filter _) = _
  apply mergeSort_filter_stable (sortLe k asc) (sortLe_trans k asc) (sortLe_total k asc)
  intro a b ha hb
  simp only [decide_eq_true_eq] at ha hb
  exact sortLe_of_tie k asc a b (tie_transport k a b r0 ha hb)

theorem sortData_idem (s : SortState) (l : List Record) :
    sortData s (sortData s l) = sortData s l := by
  rcases s with ⟨k, asc⟩
  cases k with
  | none => rfl
  | some k =>
    show (List.mergeSort _ (sortLe k asc)).mergeSort (sortLe k asc) = _
    exact List.mergeSort_of_sorted
      (List.sorted_mergeSort (sortLe_trans k asc) (sortLe_total k asc) l)

theorem sortData_desc_reverse (k : String) (l : List Record)
    (hnt : l.Pairwise (fun a b => cmpRecords k true a b ≠ 0)) :
    sortData ⟨some k, false⟩ l = (sortData ⟨some k, true⟩ l).reverse := by
  show l.mergeSort (sortLe k false) = (l.mergeSort (sortLe k true)).reverse
  have hsymm : ∀ x y : Record,
      cmpRecords k true x y ≠ 0 → cmpRecords k true y x ≠ 0 := by
    intro x y h
    rw [cmpRecords_antisymm]
    simpa using h
  have hasym : ∀ a b : Record,
      (sortLe k false a b = true ∧ cmpRecords k true a b ≠ 0) →
      (sortLe k false b a = true ∧ cmpRecords k true b a ≠ 0) → False := by
    rintro a b ⟨hab, hne⟩ ⟨hba, _⟩
    simp only [sortLe, decide_eq_true_eq] at hab hba
    rw [cmpRecords_desc_eq_neg] at hab hba
    rw [cmpRecords_antisymm] at hba
    have : cmpRecords k true a b = 0 := by linarith
    exact hne this
  have hntD : (l.mergeSort (sortLe k false)).Pairwise
      (fun a b => cmpRecords k true a b ≠ 0) :=
    (List.Perm.pairwise_iff (fun h1 => hsymm _ _ h1)
      (List.mergeSort_perm l (sortLe k false))).mpr hnt
  have hleD : (l.mergeSort (sortLe k false)).Pairwise
      (fun a b => sortLe k false a b = true) :=
    List.sorted_mergeSort (sortLe_trans k false) (sortLe_total k false) l
  have hntA : (l.mergeSort (sortLe k true)).Pairwise
      (fun a b => cmpRecords k true a b ≠ 0) :=
    (List.Perm.pairwise_iff (fun h1 => hsymm _ _ h1)
      (List.mergeSort_perm l (sortLe k true))).mpr hnt
  have hleA : (l.mergeSort (sortLe k true)).Pairwise
      (fun a b => sortLe k true a b = true) :=
    List.sorted_mergeSort (sortLe_trans k true) (sortLe_total k true) l
  have hrevA : ((l.mergeSort (sortLe k true)).reverse).Pairwise
      (fun a b => sortLe k false a b = true ∧ cmpRecords k true a b ≠ 0) := by
    rw [List.pairwise_reverse]
    apply List.Pairwise.imp ?_ (List.Pairwise.and hleA hntA)
    rintro a b ⟨hle, hne⟩
    constructor
    · simp only [sortLe, decide_eq_true_eq] at hle ⊢
      rw [cmpRecords_desc_eq_neg, cmpRecords_antisymm]
      linarith
    · exact hsymm _ _ hne
  have hD : (l.mergeSort (sortLe k false)).Pairwise
      (fun a b => sortLe k false a b = true ∧ cmpRecords k true a b ≠ 0) :=
    List.Pairwise.and hleD hntD
  have hperm : List.Perm (l.mergeSort (sortLe k false))
      ((l.mergeSort (sortLe k true)).reverse) :=
    (List.mergeSort_perm l (sortLe k false)).trans
      ((List.mergeSort_perm l (sortLe k true)).symm.trans
        (List.reverse_perm (l.mergeSort (sortLe k true))).symm)
  exact perm_pairwise_asymm_eq _ hasym _ _ hperm hD hrevA

/-- A fixed sample record used by concrete witnesses. -/
def sampleRecord : Record :=
  { cover := none, track_name := str "Song", artist := str "Singer",
    album_artist := str "Band", album_name := str "Album", year := 2000,
    disc_number := 1, track_number := 1, genre := [], composer := [],
    lyricist := [], publisher := [], language := [], comment := [],
    rating := 0, length := 61, bpm := 0, bitrate := 0, sample_rate := 0,
    copyright := [], isrc := [], length_display := str "1:01",
    file_path := none }

/-- C7: the sort engine is stable with respect to equal keys (each
comparator-tie class keeps its original relative order), is a no-op when the
sort key is unset, sorting twice with the same key and direction equals
sorting once, and on tie-free lists the descending order is the exact
reverse of the ascending order. -/
theorem claim_C7 (k : String) (asc : Bool) (l : List Record) :
    (sortData ⟨none, asc⟩ l = l) ∧
    (∀ r0 : Record,
      (sortData ⟨some k, asc⟩ l).filter (fun r => decide (cmpRecords k true r r0 = 0))
        = l.filter (fun r => decide (cmpRecords k true r r0 = 0))) ∧
    (sortData ⟨some k, asc⟩ (sortData ⟨some k, asc⟩ l) = sortData ⟨some k, asc⟩ l) ∧
    (l.Pairwise (fun a b => cmpRecords k true a b ≠ 0) →
      sortData ⟨some k, false⟩ l = (sortData ⟨some k, true⟩ l).reverse) :=
  ⟨sortData_key_none asc l,
   fun r0 => sortData_stable_classes k asc l r0,
   sortData_idem ⟨some k, asc⟩ l,
   fun hnt => sortData_desc_reverse k l hnt⟩

/-- Concrete instantiation of C7 on a two-record tie-free library sorted by
title. -/
theorem claim_C7_witness :
    sortData ⟨some "track_name", false⟩
        [sampleRecord, { sampleRecord with track_name := str "Another" }]
      = (sortData ⟨some "track_name", true⟩
          [sampleRecord, { sampleRecord with track_name := str "Another" }]).reverse :=
  (claim_C7 "track_name" true
      [sampleRecord, { sampleRecord with track_name := str "Another" }]).2.2.2
    (by decide)

/-- A regex engine that rejects every pattern, for concrete witnesses. -/
def rejectAllEngine : RegexEngine := ⟨fun _ _ => none⟩

/-- C4: a numeric rule whose primary value does not parse accepts every
record; otherwise `eq` is equality, `gt` strictly greater, `lt` strictly
less, and `between` is inclusive on both bounds; concretely, `between`
1990-1999 on `year` admits 1990 and 1999 and excludes 1989 and 2000. -/
theorem claim_C4 (e : RegexEngine) (rule : FilterRule) (numVal : ℚ) (strVal : Str) :
    (parseFloatc rule.value = none → checkRule e rule numVal strVal true = true) ∧
    (∀ f1 : ℚ, parseFloatc rule.value = some f1 →
      ((rule.operator = "eq" →
          checkRule e rule numVal strVal true = decide (numVal = f1)) ∧
       (rule.operator = "gt" →
          checkRule e rule numVal strVal true = decide (numVal > f1)) ∧
       (rule.operator = "lt" →
          checkRule e rule numVal strVal true = decide (numVal < f1)) ∧
       (∀ f2 : ℚ, rule.operator = "between" → parseFloatc rule.value2 = some f2 →
          checkRule e rule numVal strVal true
            = (decide (f1 ≤ numVal) && decide (numVal ≤ f2))))) ∧
    (applyFilters rejectAllEngine
        [("year", [⟨"between", str "1990", str "1999", false, false, false⟩])]
        [{ sampleRecord with year := 1989 }, { sampleRecord with year := 1990 },
         { sampleRecord with year := 1999 }, { sampleRecord with year := 2000 }]
      = [{ sampleRecord with year := 1990 }, { sampleRecord with year := 1999 }]) := by
  refine ⟨?_, ?_, ?_⟩
  · intro h
    simp [checkRule, h]
  · intro f1 hf
    refine ⟨?_, ?_, ?_, ?_⟩
    · intro hop
      simp [checkRule, hf, hop]
    · intro hop
      simp [checkRule, hf, hop]
    · intro hop
      simp [checkRule, hf, hop]
    · intro f2 hop hf2
      simp [checkRule, hf, hop, hf2, ge_iff_le]
  · decide

/-- Use of C4 at a concrete between rule and record value. -/
theorem claim_C4_witness :
    checkRule rejectAllEngine ⟨"between", str "1990", str "1999", false, false, false⟩
        1995 [] true
      = (decide ((1990 : ℚ) ≤ 1995) && decide ((1995 : ℚ) ≤ 1999)) :=
  ((claim_C4 rejectAllEngine
      ⟨"between", str "1990", str "1999", false, false, false⟩ 1995 []).2.1
    1990 (by decide)).2.2.2 1999 rfl (by decide)

/-- C5: a text rule in regex mode whose pattern the engine rejects
evaluates to `false` for every record (fail-closed); the `try`/`catch`
around the compilation means no error reaches the caller, which the total
embedding reflects. -/
theorem claim_C5 (e : RegexEngine) (rule : FilterRule) (numVal : ℚ) (strVal : Str)
    (hre : rule.useRegex = true)
    (hcomp : e.compile (buildRegexPattern rule) (!rule.matchCase) = none) :
    checkRule e rule numVal strVal false = false := by
  simp [checkRule, hre, hcomp]

/-- Use of C5: an unbalanced parenthesis pattern under an engine that
rejects it excludes a sample record. -/
theorem claim_C5_witness :
    checkRule rejectAllEngine ⟨"contains", str "(", [], false, false, true⟩
      0 (str "Love Story") false = false :=
  claim_C5 rejectAllEngine ⟨"contains", str "(", [], false, false, true⟩
    0 (str "Love Story") rfl rfl

/-- C6: the filter stage is idempotent, and the surviving records appear
in their original relative order (the result is a sublist of the input
characterised by the filter predicate). -/
theorem claim_C6 (e : RegexEngine) (F : List (String × List FilterRule))
    (R : List Record) :
    applyFilters e F (applyFilters e F R) = applyFilters e F R ∧
    List.Sublist (applyFilters e F R) R ∧
    (∀ r, r ∈ applyFilters e F R ↔ r ∈ R ∧ passesFilters e F r = true) := by
  refine ⟨?_, ?_, ?_⟩
  · simp [applyFilters, List.filter_filter]
  · exact List.filter_sublist R
  · intro r
    simp [applyFilters, List.mem_filter]

/-- C10: a numeric `between` rule with a parseable primary value and an
unparseable `value2` rejects every record value (`NaN` comparisons are
false), in contrast with an unparseable primary value, which accepts
everything. -/
theorem claim_C10 (e : RegexEngine) (rule : FilterRule) (numVal : ℚ) (strVal : Str)
    (hop : rule.operator = "between") :
    (∀ f1 : ℚ, parseFloatc rule.value = some f1 → parseFloatc rule.value2 = none →
       checkRule e rule numVal strVal true = false) ∧
    (parseFloatc rule.value = none → checkRule e rule numVal strVal true = true) := by
  constructor
  · intro f1 hf1 hf2
    simp [checkRule, hf1, hf2, hop]
  · intro h
    simp [checkRule, h]

/-- Use of C10: `between` from 5 with an empty upper bound excludes the
value 7. -/
theorem claim_C10_witness :
    checkRule rejectAllEngine ⟨"between", str "5", [], false, false, false⟩
      7 [] true = false :=
  (claim_C10 rejectAllEngine ⟨"between", str "5", [], false, false, false⟩
      7 [] rfl).1 5 (by decide) (by decide)

/-- C3 counterexample: the claim says every `seconds ≤ 0` renders as
`"0:00"`, but the code only special-cases falsy `0`; at `-5` the Python
formatter emits `"59:55"` (floor division and positive modulo). -/
theorem claim_C3_counterexample : format_length (-5) ≠ str "0:00" := by
  have h5 : ⌊(-5 : ℚ)⌋ = -5 := by
    rw [show ((-5 : ℚ)) = ((-5 : ℤ) : ℚ) by norm_num, Int.floor_intCast]
  rw [format_length, if_neg (by norm_num)]
  rw [floor_div_3600, floor_qmod_3600_div_60, floor_qmod_60, h5]
  decide

/-- C3 (amended): the Python and JavaScript formatters agree on
non-negative seconds; `0` renders as `"0:00"`; any other non-negative
amount is integer-truncated into hours/minutes/seconds and rendered
`M:SS` (seconds zero-padded) without an hours field when the hours part is
zero, and `H:MM:SS` (minutes and seconds zero-padded) otherwise; in
particular 61 renders as `"1:01"`, 3661 as `"1:01:01"`, 0 as `"0:00"`.
(Negative seconds, excluded here, are *not* rendered `"0:00"` — see the
counterexample.) -/
theorem claim_C3 (s : ℚ) (h0 : 0 ≤ s) :
    (format_length s = formatLengthJS s) ∧
    (s = 0 → format_length s = str "0:00") ∧
    (s ≠ 0 → format_length s = formatLengthSpec ⌊s⌋.toNat) ∧
    format_length 61 = str "1:01" ∧
    format_length 3661 = str "1:01:01" ∧
    format_length 0 = str "0:00" := by
  refine ⟨format_length_eq_JS s h0, ?_, ?_, ?_, ?_, ?_⟩
  · intro h
    rw [format_length, if_pos h]
  · intro h
    exact format_length_eq_spec s h0 h
  · rw [format_length_eq_spec 61 (by norm_num) (by norm_num),
      show ((61 : ℚ)) = ((61 : ℤ) : ℚ) by norm_num, Int.floor_intCast]
    decide
  · rw [format_length_eq_spec 3661 (by norm_num) (by norm_num),
      show ((3661 : ℚ)) = ((3661 : ℤ) : ℚ) by norm_num, Int.floor_intCast]
    decide
  · rw [format_length, if_pos rfl]

/-- Use of C3 at 61 seconds. -/
theorem claim_C3_witness : format_length 61 = str "1:01" :=
  (claim_C3 61 (by norm_num)).2.2.2.1

/-- POSIX `os.path.basename`. -/
def basename (p : Str) : Str := (p.reverse.takeWhile (fun c => !(c == '/'))).reverse

/-- POSIX `os.path.dirname`. -/
def dirname (p : Str) : Str :=
  let head := p.take (p.length - (basename p).length)
  if head.all (fun c => c == '/') then head
  else (head.reverse.dropWhile (fun c => c == '/')).reverse

/-- POSIX `os.path.join` for the relative file names used here. -/
def joinPath (folder name : Str) : Str :=
  if folder.isEmpty then name
  else if folder.getLast? = some '/' then folder ++ name
  else folder ++ '/' :: name

/-- `os.path.splitext(...)[0]` on a basename: strip the extension at the
last dot, ignoring any leading dots. -/
def stemOfBasename (b : Str) : Str :=
  let lead := b.takeWhile (fun c => c == '.')
  let rest := b.drop lead.length
  if rest.any (fun c => c == '.') then
    lead ++ (rest.reverse.dropWhile (fun c => !(c == '.'))).reverse.dropLast
  else b

/-- `find_cover_image` (Python lines 102-110): try the fixed names and
extensions in the source's nested-loop order (extensions outer) against
the file system `isfile`, returning the `abspath` of the first hit.  The
file system and path normalisation are explicit collaborator parameters. -/
def find_cover_image (isfile : Str → Bool) (abspath : Str → Str) (file_path : Str) :
    Option Str :=
  let folder := dirname file_path
  [str ".jpg", str ".png", str ".jpeg"].findSome? (fun ext =>
    [str "cover", str "folder", str "front", str "album"].findSome? (fun nm =>
      let cover_path := joinPath folder (nm ++ ext)
      if isfile cover_path then some (abspath cover_path) else none))

/-- The candidate list in the order the code actually probes it:
extension-major. -/
def coverCandidatesExtMajor (folder : Str) : List Str :=
  [str ".jpg", str ".png", str ".jpeg"].flatMap (fun ext =>
    [str "cover", str "folder", str "front", str "album"].map (fun nm =>
      joinPath folder (nm ++ ext)))

/-- Modelled from the claim's words: the name-major probe order
(`cover.jpg, cover.png, cover.jpeg, folder.jpg, ...`). -/
def coverSearchNameMajor (isfile : Str → Bool) (abspath : Str → Str) (file_path : Str) :
    Option Str :=
  let folder := dirname file_path
  ((([str "cover", str "folder", str "front", str "album"].flatMap (fun nm =>
      [str ".jpg", str ".png", str ".jpeg"].map (fun ext =>
        joinPath folder (nm ++ ext)))).find? isfile).map abspath)

theorem findSome?_probe (ab : Str → Str) (isfile : Str → Bool) (cands : List Str) :
    (cands.findSome? (fun cp => if isfile cp then some (ab cp) else none))
      = (cands.find? isfile).map ab := by
  induction cands with
  | nil => rfl
  | cons c cs ih =>
    by_cases h : isfile c
    · simp [List.findSome?_cons, List.find?_cons, h]
    · have hf : isfile c = false := by simpa using h
      simp [List.findSome?_cons, List.find?_cons, hf, ih]

/-- C9 counterexample: with both `folder.jpg` and `cover.png` present the
code returns `folder.jpg` (extension-major order), not the `cover.png`
the claimed name-major order would produce. -/
theorem claim_C9_counterexample :
    find_cover_image
        (fun p => p == str "d/folder.jpg" || p == str "d/cover.png")
        (fun p => p) (str "d/a.mp3")
      = some (str "d/folder.jpg") ∧
    coverSearchNameMajor
        (fun p => p == str "d/folder.jpg" || p == str "d/cover.png")
        (fun p => p) (str "d/a.mp3")
      = some (str "d/cover.png") ∧
    find_cover_image
        (fun p => p == str "d/folder.jpg" || p == str "d/cover.png")
        (fun p => p) (str "d/a.mp3")
      ≠ coverSearchNameMajor
          (fun p => p == str "d/folder.jpg" || p == str "d/cover.png")
          (fun p => p) (str "d/a.mp3") := by
  refine ⟨by decide, by decide, by decide⟩

theorem findSome?_family (ab : Str → Str) (isfile : Str → Bool)
    (L : Str → List Str) :
    ∀ exts : List Str,
      (exts.findSome? (fun e => ((L e).find? isfile).map ab))
        = ((exts.flatMap L).find? isfile).map ab := by
  intro exts
  induction exts with
  | nil => rfl
  | cons e es ih =>
    rw [List.flatMap_cons, List.find?_append, List.findSome?_cons]
    cases hfe : (L e).find? isfile with
    | some v => simp [hfe]
    | none => simp [hfe, ih]

/-- C9 (amended): cover-art resolution probes the directory of the file
for the names cover, folder, front, album crossed with .jpg, .png, .jpeg
in **extension-major** order (cover.jpg, folder.jpg, front.jpg, album.jpg,
cover.png, ...) and returns the first existing candidate, or none. -/
theorem claim_C9 (isfile : Str → Bool) (abspath : Str → Str) (p : Str) :
    find_cover_image isfile abspath p
      = ((coverCandidatesExtMajor (dirname p)).find? isfile).map abspath := by
  have hinner : ∀ ext : Str,
      ([str "cover", str "folder", str "front", str "album"].findSome? (fun nm =>
        if isfile (joinPath (dirname p) (nm ++ ext)) then
          some (abspath (joinPath (dirname p) (nm ++ ext))) else none))
      = ((([str "cover", str "folder", str "front", str "album"]).map
            (fun nm => joinPath (dirname p) (nm ++ ext))).find? isfile).map abspath := by
    intro ext
    rw [← findSome?_probe abspath isfile]
    rw [List.findSome?_map]
    rfl
  show ([str ".jpg", str ".png", str ".jpeg"].findSome? (fun ext =>
      [str "cover", str "folder", str "front", str "album"].findSome? (fun nm =>
        if isfile (joinPath (dirname p) (nm ++ ext)) then
          some (abspath (joinPath (dirname p) (nm ++ ext))) else none))) = _
  simp only [hinner]
  exact findSome?_family abspath isfile
    (fun ext => [str "cover", str "folder", str "front", str "album"].map
      (fun nm => joinPath (dirname p) (nm ++ ext)))
    [str ".jpg", str ".png", str ".jpeg"]

/-- Outcome of `mutagen.File(file_path, easy=True)` for one file: the
reader may return no object (line 13-14), the whole attempt may raise
(lines 59-84), or it succeeds; the successfully built metadata record
abstracts the collaborator-side tag lookups of lines 33-56. -/
inductive MutagenResult where
  | noObj
  | exn
  | ok (r : Record)
deriving DecidableEq

/-- The sentinel record built by the `except` branch (lines 61-84):
`"Error"` texts, zero numerics, the filename stem as the title, and a
best-effort cover lookup.  `length_display` is attached later by
`generate_html`. -/
def sentinelRecord (isfile : Str → Bool) (abspath : Str → Str) (file_path : Str) :
    Record :=
  { cover := find_cover_image isfile abspath file_path,
    track_name := stemOfBasename (basename file_path),
    artist := str "Error", album_artist := str "Error", album_name := str "Error",
    year := 0, disc_number := 0, track_number := 0,
    genre := [], composer := [], lyricist := [], publisher := [], language := [],
    comment := [], rating := 0, length := 0, bpm := 0, bitrate := 0,
    sample_rate := 0, copyright := [], isrc := [], length_display := [],
    file_path := some file_path }

/-- `extract_metadata` (lines 9-84): `None` when the reader yields no
object, the sentinel record when the attempt raises, the read record on
success. -/
def extract_metadata (isfile : Str → Bool) (abspath : Str → Str)
    (file_path : Str) (res : MutagenResult) : Option Record :=
  match res with
  | MutagenResult.noObj => none
  | MutagenResult.exn => some (sentinelRecord isfile abspath file_path)
  | MutagenResult.ok r => some r

/-- The collection loop of `collect_metadata` (lines 123-126) over the
candidate files delivered by the directory scanner (the walk and the
extension filter are the scanner collaborator, spec section 1): append
each extraction result that is not `None`. -/
def collect_metadata (isfile : Str → Bool) (abspath : Str → Str)
    (files : List (Str × MutagenResult)) : List Record :=
  files.filterMap (fun pr => extract_metadata isfile abspath pr.1 pr.2)

/-- C2 counterexample: a file the tag reader cannot open at all
(`mutagen.File` returns `None`) is dropped from the collected list — no
record for it, sentinel or otherwise, appears. -/
theorem claim_C2_counterexample :
    collect_metadata (fun _ => false) (fun p => p)
      [(str "music/song.mp3", MutagenResult.noObj)] = [] := by
  decide

/-- C2 (amended): a read failure that raises an exception yields the
sentinel/default record, and that record appears in the collected list in
the file's position; but a file for which the tag reader returns no object
is omitted from the dataset. -/
theorem claim_C2 (isfile : Str → Bool) (abspath : Str → Str) :
    (∀ p : Str, extract_metadata isfile abspath p MutagenResult.exn
        = some (sentinelRecord isfile abspath p)) ∧
    (∀ (A B : List (Str × MutagenResult)) (p : Str),
      collect_metadata isfile abspath (A ++ (p, MutagenResult.exn) :: B)
        = collect_metadata isfile abspath A
            ++ sentinelRecord isfile abspath p :: collect_metadata isfile abspath B) ∧
    (∀ (A B : List (Str × MutagenResult)) (p : Str),
      collect_metadata isfile abspath (A ++ (p, MutagenResult.noObj) :: B)
        = collect_metadata isfile abspath A ++ collect_metadata isfile abspath B) := by
  refine ⟨fun p => rfl, ?_, ?_⟩
  · intro A B p
    simp [collect_metadata, List.filterMap_append, List.filterMap_cons, extract_metadata]
  · intro A B p
    simp [collect_metadata, List.filterMap_append, List.filterMap_cons, extract_metadata]

/-- Quote doubling: `str.replace(/"/g, '""')`. -/
def doubleQuotes (s : Str) : Str :=
  s.flatMap (fun c => if c == '"' then ['"', '"'] else [c])

/-- `escapeCSV` (JS lines 856-861): quote and double-quote a field that
contains the delimiter, a double quote or a newline. -/
def escapeCSVc (d : Char) (s : Str) : Str :=
  if s.contains d || s.contains '"' || s.contains '\n' then
    '"' :: doubleQuotes s ++ ['"']
  else s

/-- Prepend a character to the first piece (the loop's `current += char`). -/
def prependToHead (c : Char) : List Str → List Str
  | [] => [[c]]
  | l :: ls => (c :: l) :: ls

/-- Prepend a string to the first piece. -/
def prependList (p : Str) : List Str → List Str
  | [] => [p]
  | l :: ls => (p ++ l) :: ls

/-- `splitCSV` (JS lines 932-951) as a recursion over the characters: a
pair of quotes emits a literal quote (checked first), a lone quote toggles
the in-quotes state, the delimiter outside quotes closes the current cell,
anything else is accumulated. -/
def splitCSVrec (d : Char) : Str → Bool → List Str
  | [], _ => [[]]
  | c :: rest, inq =>
    if c == '"' then
      match rest with
      | [] => [[]]
      | c2 :: rest2 =>
        if c2 == '"' then prependToHead '"' (splitCSVrec d rest2 inq)
        else splitCSVrec d (c2 :: rest2) (!inq)
    else if c == d && !inq then [] :: splitCSVrec d rest inq
    else prependToHead c (splitCSVrec d rest inq)

/-- The source's `splitCSV(str, delimiter)` starts outside quotes. -/
def splitCSV (d : Char) (s : Str) : List Str := splitCSVrec d s false

/-- What one escaped cell parses back to: faithful, except that a
non-empty all-quotes field gains one extra quote (the leading `""` of its
escape is consumed as a literal pair before any quote toggles the state). -/
def parsedCell (s : Str) : Str :=
  if s.all (fun c => c == '"') then '"' :: s else s

theorem prependToHead_prependList (c : Char) (p : Str) (ls : List Str) :
    prependToHead c (prependList p ls) = prependList (c :: p) ls := by
  cases ls <;> rfl

theorem prependList_nil_of_ne (ls : List Str) (h : ls ≠ []) :
    prependList [] ls = ls := by
  cases ls with
  | nil => exact absurd rfl h
  | cons l ls => simp [prependList]

theorem splitCSVrec_cons (d c : Char) (rest : Str) (inq : Bool) :
    splitCSVrec d (c :: rest) inq =
      if c == '"' then
        match rest with
        | [] => [[]]
        | c2 :: rest2 =>
          if c2 == '"' then prependToHead '"' (splitCSVrec d rest2 inq)
          else splitCSVrec d (c2 :: rest2) (!inq)
      else if c == d && !inq then [] :: splitCSVrec d rest inq
      else prependToHead c (splitCSVrec d rest inq) := by
  rw [splitCSVrec.eq_def]
  rfl

theorem splitCSVrec_ne_nil (d : Char) (s : Str) : ∀ inq, splitCSVrec d s inq ≠ [] := by
  induction s with
  | nil => intro inq; simp [splitCSVrec]
  | cons c rest ih =>
    intro inq
    rw [splitCSVrec_cons]
    by_cases hc : c == '"'
    · rw [if_pos hc]
      cases rest with
      | nil => simp
      | cons c2 rest2 =>
        show (if c2 == '"' then prependToHead '"' (splitCSVrec d rest2 inq)
              else splitCSVrec d (c2 :: rest2) (!inq)) ≠ []
        by_cases hc2 : c2 == '"'
        · rw [if_pos hc2]
          cases h : splitCSVrec d rest2 inq <;> simp [prependToHead]
        · rw [if_neg hc2]
          exact ih (!inq)
    · rw [if_neg hc]
      by_cases hd : c == d && !inq
      · rw [if_pos hd]
        simp
      · rw [if_neg hd]
        cases h : splitCSVrec d rest inq <;> simp [prependToHead]

theorem doubleQuotes_cons (c : Char) (s : Str) :
    doubleQuotes (c :: s) = (if c == '"' then ['"', '"'] else [c]) ++ doubleQuotes s := rfl

theorem prependToHead_single (c : Char) (X : List Str) :
    prependToHead c X = prependList [c] X := by
  cases X <;> rfl

theorem parsedCell_cons_quote (s : Str) :
    parsedCell ('"' :: s) = '"' :: parsedCell s := by
  rw [parsedCell, parsedCell]
  by_cases h : s.all (fun c => c == '"')
  · rw [if_pos h, if_pos (by simp [h])]
  · have hf : s.all (fun c => c == '"') = false := by simpa using h
    rw [if_neg (by simp [hf]), if_neg (by simp [hf])]

theorem parsedCell_cons_nonquote (a : Char) (s : Str) (ha : (a == '"') = false) :
    parsedCell (a :: s) = a :: s := by
  rw [parsedCell, if_neg]
  simp [ha]

/-- Inside quotes, the doubled content followed by the closing quote is
consumed verbatim and the state returns to "outside quotes". -/
theorem splitCSV_inquote (d : Char) (s : Str) :
    ∀ rest : Str, rest.head? ≠ some '"' →
      splitCSVrec d (doubleQuotes s ++ '"' :: rest) true
        = prependList s (splitCSVrec d rest false) := by
  induction s with
  | nil =>
    intro rest hr
    show splitCSVrec d ('"' :: rest) true = _
    rw [splitCSVrec_cons, if_pos (show ('"' == '"') = true from rfl)]
    cases rest with
    | nil =>
      show ([[]] : List Str) = prependList [] (splitCSVrec d [] false)
      rfl
    | cons c2 rest2 =>
      have hc2 : (c2 == '"') = false := by
        cases hcc : c2 == '"'
        · rfl
        · exfalso
          apply hr
          have : c2 = '"' := by simpa using hcc
          simp [this]
      show (if c2 == '"' then prependToHead '"' (splitCSVrec d rest2 true)
            else splitCSVrec d (c2 :: rest2) (!true)) = _
      rw [if_neg (show ¬ ((c2 == '"') = true) by simp [hc2])]
      rw [prependList_nil_of_ne _ (splitCSVrec_ne_nil d _ _)]
      rfl
  | cons a s' ih =>
    intro rest hr
    by_cases ha : a = '"'
    · subst ha
      show splitCSVrec d ('"' :: '"' :: (doubleQuotes s' ++ '"' :: rest)) true = _
      rw [splitCSVrec_cons, if_pos (show ('"' == '"') = true from rfl)]
      show (if ('"' == '"') then
              prependToHead '"' (splitCSVrec d (doubleQuotes s' ++ '"' :: rest) true)
            else splitCSVrec d ('"' :: (doubleQuotes s' ++ '"' :: rest)) (!true)) = _
      rw [if_pos (show ('"' == '"') = true from rfl), ih rest hr, prependToHead_prependList]
    · have ha' : (a == '"') = false := by simp [ha]
      have hd : doubleQuotes (a :: s') = a :: doubleQuotes s' := by
        rw [doubleQuotes_cons, if_neg (show ¬ ((a == '"') = true) by simp [ha'])]
        rfl
      rw [hd, List.cons_append]
      rw [splitCSVrec_cons, if_neg (show ¬ ((a == '"') = true) by simp [ha'])]
      rw [if_neg (show ¬ ((a == d && !true) = true) by simp)]
      rw [ih rest hr, prependToHead_prependList]

/-- An escaped (quoted) cell at the head of the remaining text parses back to
`parsedCell` of its content. -/
theorem splitCSV_escaped (d : Char) (s : Str) :
    ∀ rest : Str, rest.head? ≠ some '"' →
      splitCSVrec d ('"' :: (doubleQuotes s ++ '"' :: rest)) false
        = prependList (parsedCell s) (splitCSVrec d rest false) := by
  induction s with
  | nil =>
    intro rest hr
    show splitCSVrec d ('"' :: '"' :: rest) false = _
    rw [splitCSVrec_cons, if_pos (show ('"' == '"') = true from rfl)]
    show (if ('"' == '"') then prependToHead '"' (splitCSVrec d rest false)
          else splitCSVrec d ('"' :: rest) (!false)) = _
    rw [if_pos (show ('"' == '"') = true from rfl)]
    show _ = prependList ['"'] (splitCSVrec d rest false)
    rw [prependToHead_single]
  | cons a s' ih =>
    intro rest hr
    by_cases ha : a = '"'
    · subst ha
      show splitCSVrec d ('"' :: '"' :: '"' :: (doubleQuotes s' ++ '"' :: rest)) false = _
      rw [splitCSVrec_cons, if_pos (show ('"' == '"') = true from rfl)]
      show (if ('"' == '"') then
              prependToHead '"' (splitCSVrec d ('"' :: (doubleQuotes s' ++ '"' :: rest)) false)
            else splitCSVrec d ('"' :: '"' :: (doubleQuotes s' ++ '"' :: rest)) (!false)) = _
      rw [if_pos (show ('"' == '"') = true from rfl), ih rest hr]
      rw [prependToHead_prependList, parsedCell_cons_quote]
    · have ha' : (a == '"') = false := by simp [ha]
      have hd : doubleQuotes (a :: s') = a :: doubleQuotes s' := by
        rw [doubleQuotes_cons, if_neg (show ¬ ((a == '"') = true) by simp [ha'])]
        rfl
      rw [hd]
      show splitCSVrec d ('"' :: a :: (doubleQuotes s' ++ '"' :: rest)) false = _
      rw [splitCSVrec_cons, if_pos (show ('"' == '"') = true from rfl)]
      show (if a == '"' then
              prependToHead '"' (splitCSVrec d (doubleQuotes s' ++ '"' :: rest) false)
            else splitCSVrec d (a :: (doubleQuotes s' ++ '"' :: rest)) (!false)) = _
      rw [if_neg (show ¬ ((a == '"') = true) by simp [ha'])]
      show splitCSVrec d (a :: (doubleQuotes s' ++ '"' :: rest)) true = _
      rw [splitCSVrec_cons, if_neg (show ¬ ((a == '"') = true) by simp [ha'])]
      rw [if_neg (show ¬ ((a == d && !true) = true) by simp)]
      rw [splitCSV_inquote d s' rest hr, prependToHead_prependList]
      rw [parsedCell_cons_nonquote a s' ha']

/-- A cell containing neither quotes nor the delimiter parses back verbatim. -/
theorem splitCSV_plain (d : Char) (s : Str)
    (hs : ∀ c ∈ s, (c == '"') = false ∧ (c == d) = false) :
    ∀ rest : Str,
      splitCSVrec d (s ++ rest) false = prependList s (splitCSVrec d rest false) := by
  induction s with
  | nil =>
    intro rest
    rw [prependList_nil_of_ne _ (splitCSVrec_ne_nil d _ _)]
    rfl
  | cons a s' ih =>
    intro rest
    obtain ⟨ha1, ha2⟩ := hs a (by simp)
    rw [List.cons_append, splitCSVrec_cons]
    rw [if_neg (show ¬ ((a == '"') = true) by simp [ha1])]
    rw [if_neg (show ¬ ((a == d && !false) = true) by simp [ha2])]
    rw [ih (fun c hc => hs c (by simp [hc])) rest, prependToHead_prependList]

/-- `Array.prototype.join(sep)` over the cell strings. -/
def joinCells (d : Char) : List Str → Str
  | [] => []
  | c :: cs =>
    match cs with
    | [] => c
    | _ :: _ => c ++ d :: joinCells d cs

def needsEscape (d : Char) (s : Str) : Bool :=
  s.contains d || s.contains '"' || s.contains '\n'

/-- What one exported cell reads back as on import: the value itself,
except that a non-empty all-quotes value gains a leading quote. -/
def importedCellOf (d : Char) (s : Str) : Str :=
  if needsEscape d s then parsedCell s else s

theorem escapeCSVc_eq (d : Char) (s : Str) :
    escapeCSVc d s = if needsEscape d s then '"' :: doubleQuotes s ++ ['"'] else s := rfl

theorem joinCells_cons₂ (d : Char) (c c2 : Str) (cs : List Str) :
    joinCells d (c :: c2 :: cs) = c ++ d :: joinCells d (c2 :: cs) := rfl


theorem mem_of_contains {s : Str} {a : Char} (h : s.contains a = true) : a ∈ s := by
  simpa using h

theorem contains_of_mem {s : Str} {a : Char} (h : a ∈ s) : s.contains a = true := by
  simpa using h

theorem noEscape_chars (d : Char) (c : Str) (hesc : needsEscape d c = false) :
    ∀ ch ∈ c, (ch == '"') = false ∧ (ch == d) = false := by
  intro ch hch
  constructor
  · cases hb : ch == '"'
    · rfl
    · have he : ch = '"' := by simpa using hb
      rw [he] at hch
      rw [show needsEscape d c = true by
        simp only [needsEscape]
        simp
        exact Or.inl (Or.inr hch)] at hesc
      exact absurd hesc (by simp)
  · cases hb : ch == d
    · rfl
    · have he : ch = d := by simpa using hb
      rw [he] at hch
      rw [show needsEscape d c = true by
        simp only [needsEscape]
        simp
        exact Or.inl (Or.inl hch)] at hesc
      exact absurd hesc (by simp)

/-- Parsing a joined row of escaped cells recovers each cell up to the
all-quotes anomaly. -/
theorem splitCSV_join (d : Char) (hdq : (d == '"') = false) :
    ∀ cells : List Str, cells ≠ [] →
      splitCSV d (joinCells d (cells.map (escapeCSVc d)))
        = cells.map (importedCellOf d) := by
  intro cells
  induction cells with
  | nil => intro h; exact absurd rfl h
  | cons c cs ih =>
    intro _
    cases cs with
    | nil =>
      show splitCSV d (escapeCSVc d c) = [importedCellOf d c]
      rw [splitCSV, escapeCSVc_eq, importedCellOf]
      by_cases hesc : needsEscape d c = true
      · rw [if_pos hesc, if_pos hesc]
        have hshape : ('"' :: doubleQuotes c ++ ['"'] : Str)
            = '"' :: (doubleQuotes c ++ '"' :: ([] : Str)) := by simp
        rw [hshape, splitCSV_escaped d c [] (by simp)]
        simp [prependList, splitCSVrec]
      · rw [if_neg hesc, if_neg hesc]
        have hshape : (c : Str) = c ++ ([] : Str) := by simp
        rw [hshape, splitCSV_plain d c (noEscape_chars d c (by simpa using hesc)) []]
        simp [prependList, splitCSVrec]
    | cons c2 cs2 =>
      have hrest : joinCells d ((c :: c2 :: cs2).map (escapeCSVc d))
          = escapeCSVc d c ++ d :: joinCells d ((c2 :: cs2).map (escapeCSVc d)) := rfl
      show splitCSV d _ = importedCellOf d c :: (c2 :: cs2).map (importedCellOf d)
      rw [hrest]
      have hih := ih (by simp)
      set L := joinCells d ((c2 :: cs2).map (escapeCSVc d)) with hL
      have hdstep : splitCSVrec d (d :: L) false = [] :: splitCSVrec d L false := by
        rw [splitCSVrec_cons, if_neg (show ¬ ((d == '"') = true) by simp [hdq])]
        rw [if_pos (show (d == d && !false) = true by simp)]
      have hdne : (d :: L).head? ≠ some '"' := by
        intro h
        have : d = '"' := by simpa using h
        rw [this] at hdq
        exact absurd hdq (by simp)
      rw [splitCSV, escapeCSVc_eq, importedCellOf]
      by_cases hesc : needsEscape d c = true
      · rw [if_pos hesc, if_pos hesc]
        have hassoc : (('"' :: doubleQuotes c ++ ['"']) ++ d :: L : Str)
            = '"' :: (doubleQuotes c ++ '"' :: (d :: L)) := by simp
        rw [hassoc, splitCSV_escaped d c (d :: L) hdne, hdstep]
        show prependList (parsedCell c) ([] :: splitCSV d L) = _
        rw [hih]
        simp [prependList]
      · rw [if_neg hesc, if_neg hesc]
        rw [splitCSV_plain d c (noEscape_chars d c (by simpa using hesc)) (d :: L), hdstep]
        show prependList c ([] :: splitCSV d L) = _
        rw [hih]
        simp [prependList]

/-- Every non-separator character of a string lies inside one of its
split pieces. -/
theorem splitOnC_mem_piece (sep : Char) :
    ∀ l : Str, ∀ c : Char, c ∈ l → c ≠ sep → ∃ p ∈ splitOnC sep l, c ∈ p := by
  intro l
  induction l with
  | nil =>
    intro c hc
    simp at hc
  | cons a rest ih =>
    intro c hc hne
    by_cases ha : a = sep
    · subst ha
      have hcr : c ∈ rest := by
        rcases List.mem_cons.mp hc with h | h
        · exact absurd h hne
        · exact h
      obtain ⟨p, hp, hcp⟩ := ih c hcr hne
      refine ⟨p, ?_, hcp⟩
      simp [splitOnC, hp]
    · have hb : (a == sep) = false := by simp [ha]
      rcases List.mem_cons.mp hc with h | h
      · subst h
        cases hsp : splitOnC sep rest with
        | nil => exact absurd hsp (splitOnC_ne_nil sep rest)
        | cons p ps =>
          refine ⟨c :: p, ?_, by simp⟩
          simp [splitOnC, hb, hsp]
      · obtain ⟨p, hp, hcp⟩ := ih c h hne
        cases hsp : splitOnC sep rest with
        | nil => exact absurd hsp (splitOnC_ne_nil sep rest)
        | cons q qs =>
          rw [hsp] at hp
          rcases List.mem_cons.mp hp with h2 | h2
          · subst h2
            refine ⟨a :: p, ?_, by simp [hcp]⟩
            simp [splitOnC, hb, hsp]
          · refine ⟨p, ?_, hcp⟩
            simp [splitOnC, hb, hsp, h2]

/-- Number of non-empty lines of a text. -/
def countNE (t : Str) : Nat :=
  ((splitOnC '\n' t).filter (fun l => !l.isEmpty)).length

theorem countNE_pos (t : Str) (c : Char) (hc : c ∈ t) (hws : isWsChar c = false) :
    1 ≤ countNE t := by
  have hne : c ≠ '\n' := by
    intro h
    subst h
    simp [isWsChar] at hws
  obtain ⟨p, hp, hcp⟩ := splitOnC_mem_piece '\n' t c hc hne
  have hpe : p.isEmpty = false := by
    cases p with
    | nil => simp at hcp
    | cons x xs => simp
  have hmem : p ∈ (splitOnC '\n' t).filter (fun l => !l.isEmpty) := by
    rw [List.mem_filter]
    exact ⟨hp, by simp [hpe]⟩
  have hpos : 0 < countNE t := List.length_pos.mpr (List.ne_nil_of_mem hmem)
  omega

theorem dropWhileWs_head :
    ∀ l : Str, ∀ a : Char, ∀ r : Str,
      List.dropWhile isWsChar l = a :: r → isWsChar a = false := by
  intro l
  induction l with
  | nil =>
    intro a r h
    simp at h
  | cons c l' ih =>
    intro a r h
    rw [List.dropWhile_cons] at h
    by_cases hw : isWsChar c = true
    · rw [if_pos hw] at h
      exact ih a r h
    · rw [if_neg hw] at h
      cases h
      simpa using hw

theorem dropTrailWs_decomp (u : Str) :
    ∃ w : Str, u = dropTrailWs u ++ w ∧ ∀ c ∈ w, isWsChar c = true := by
  refine ⟨(u.reverse.takeWhile isWsChar).reverse, ?_, ?_⟩
  · calc u = u.reverse.reverse := by simp
    _ = (u.reverse.takeWhile isWsChar ++ u.reverse.dropWhile isWsChar).reverse := by
        rw [List.takeWhile_append_dropWhile]
    _ = (u.reverse.dropWhile isWsChar).reverse ++ (u.reverse.takeWhile isWsChar).reverse := by
        rw [List.reverse_append]
    _ = dropTrailWs u ++ (u.reverse.takeWhile isWsChar).reverse := rfl
  · intro c hcw
    rw [List.mem_reverse] at hcw
    exact List.mem_takeWhile_imp hcw

theorem dropLeadWs_decomp (u : Str) :
    ∃ w : Str, u = w ++ dropLeadWs u ∧ ∀ c ∈ w, isWsChar c = true := by
  refine ⟨u.takeWhile isWsChar, (List.takeWhile_append_dropWhile _ _).symm, ?_⟩
  intro c hcw
  exact List.mem_takeWhile_imp hcw

theorem trimc_head (t : Str) (a : Char) (r : Str) (h : trimc t = a :: r) :
    isWsChar a = false := by
  obtain ⟨w, hw, _⟩ := dropTrailWs_decomp (dropLeadWs t)
  rw [trimc] at h
  rw [h] at hw
  have hw' : List.dropWhile isWsChar t = a :: (r ++ w) := by
    rw [show List.dropWhile isWsChar t = dropLeadWs t from rfl, hw]
    simp
  exact dropWhileWs_head t a (r ++ w) hw'

theorem trimc_last (t : Str) (a : Char) (r : Str) (h : trimc t = r ++ [a]) :
    isWsChar a = false := by
  rw [trimc, dropTrailWs] at h
  have hrev : List.dropWhile isWsChar (dropLeadWs t).reverse = a :: r.reverse := by
    have := congrArg List.reverse h
    simpa using this
  exact dropWhileWs_head _ a r.reverse hrev

/-- If the trimmed text splits into at least two lines, the original text
has at least two non-empty lines. -/
theorem trim_two_lines (t : Str) (h2 : 2 ≤ (splitOnC '\n' (trimc t)).length) :
    2 ≤ countNE t := by
  have hnl : '\n' ∈ trimc t := by
    by_contra hn
    rw [splitOnC_of_not_mem _ _ hn] at h2
    simp at h2
  obtain ⟨A, B, hAB⟩ := List.append_of_mem hnl
  obtain ⟨w1, hw1, _⟩ := dropLeadWs_decomp t
  obtain ⟨w2, hw2, _⟩ := dropTrailWs_decomp (dropLeadWs t)
  have ht : t = (w1 ++ A) ++ '\n' :: (B ++ w2) := by
    rw [hw1]
    conv_lhs => rw [hw2]
    rw [show dropTrailWs (dropLeadWs t) = trimc t from rfl, hAB]
    simp
  cases hA : A with
  | nil =>
    rw [hA] at hAB
    simp at hAB
    have := trimc_head t '\n' B hAB
    simp [isWsChar] at this
  | cons a A' =>
    rcases List.eq_nil_or_concat B with hB | ⟨B', b, hB⟩
    · rw [hB] at hAB
      have := trimc_last t '\n' A (by simpa using hAB)
      simp [isWsChar] at this
    · have ha : isWsChar a = false := by
        apply trimc_head t a (A' ++ '\n' :: B)
        rw [hAB, hA]
        simp
      have hb : isWsChar b = false := by
        apply trimc_last t b (A ++ '\n' :: B')
        rw [hAB, hB]
        simp
      have hsplit : splitOnC '\n' t
          = splitOnC '\n' (w1 ++ A) ++ splitOnC '\n' (B ++ w2) := by
        conv_lhs => rw [ht]
        exact splitOnC_append '\n' (w1 ++ A) (B ++ w2)
      have hcount : countNE t = countNE (w1 ++ A) + countNE (B ++ w2) := by
        rw [countNE, hsplit, List.filter_append, List.length_append]
        rfl
      have h1 : 1 ≤ countNE (w1 ++ A) := countNE_pos _ a (by rw [hA]; simp) ha
      have hb1 : 1 ≤ countNE (B ++ w2) := countNE_pos _ b (by rw [hB]; simp) hb
      omega

/-- The grid's page-level mutable state (JS lines 485-489 plus the data
arrays). -/
structure GridState where
  audioData : List Record
  columns : List Column
  currentSort : SortState
  activeFilters : List (String × List FilterRule)
  visibleData : List Record
deriving DecidableEq

/-- `processData()` (JS lines 514-537): recompute `visibleData` from
`audioData`, the active filters and the current sort; nothing else moves. -/
def processData (e : RegexEngine) (st : GridState) : GridState :=
  { st with visibleData := sortData st.currentSort (applyFilters e st.activeFilters st.audioData) }

/-- The export keys in column-catalog order ("all columns selected"). -/
def allKeys : List String := defaultColumns.map (fun c => c.key)

/-- One exported cell before escaping (lines 827-830): `item[k]` with the
`length` column redirected to `length_display`, then `String(val || '')`. -/
def exportCell (r : Record) (k : String) : Str :=
  jsStringOrEmpty (if k == "length" then getField r "length_display" else getField r k)

/-- One exported data row (lines 826-831). -/
def exportRow (d : Char) (keys : List String) (r : Record) : Str :=
  joinCells d (keys.map (fun k => escapeCSVc d (exportCell r k)))

/-- The full export text (lines 818-834): escaped header labels, then one
row per visible record, all joined by newlines.  A selected key missing
from the catalog would throw in the source (`c.label` on `undefined`); it
is modelled as an empty label and is unreachable in every use below. -/
def exportContentOf (d : Char) (keys : List String) (cols : List Column)
    (data : List Record) : Str :=
  let header := joinCells d (keys.map (fun k =>
    match cols.find? (fun c => c.key == k) with
    | some c => escapeCSVc d c.label.toList
    | none => []))
  header ++ '\n' :: joinCells '\n' (data.map (exportRow d keys))

/-- The export click handler's data path (lines 810-834): with no column
selected it alerts and returns before building anything; otherwise it
produces the content.  It never writes the grid state. -/
def performExport (st : GridState) (selectedKeys : List String) (d : Char) :
    GridState × Option String × Option Str :=
  if selectedKeys.isEmpty then (st, some "Select at least one column.", none)
  else (st, none, some (exportContentOf d selectedKeys st.columns st.visibleData))

/-- Header-to-key resolution (lines 891-895): for each (already trimmed)
header cell, the first catalog column whose label or key matches
case-insensitively. -/
def buildKeyMap (cols : List Column) (headers : List Str) : List (Option String) :=
  headers.map (fun h =>
    match cols.find? (fun c =>
        lowerc c.label.toList == lowerc h || lowerc c.key.toList == lowerc h) with
    | some c => some c.key
    | none => none)

/-- The per-row starting object (line 901): `0` for number columns, `''`
for the rest; `cover` therefore holds a string, `file_path` is never
created, and `length` starts as `''` — a falsy value indistinguishable
from `0` by every consumer in the script, so it is modelled as `0`. -/
def importBaseRecord : Record :=
  { cover := some []
  , track_name := [], artist := [], album_artist := [], album_name := []
  , genre := [], composer := [], lyricist := [], publisher := []
  , language := [], comment := [], copyright := [], isrc := []
  , year := 0, disc_number := 0, track_number := 0, rating := 0
  , bpm := 0, bitrate := 0, sample_rate := 0
  , length := 0, length_display := []
  , file_path := none }

def setImportedNum (r : Record) (key : String) (n : Int) : Record :=
  if key = "year" then { r with year := n }
  else if key = "disc_number" then { r with disc_number := n }
  else if key = "track_number" then { r with track_number := n }
  else if key = "rating" then { r with rating := n }
  else if key = "bpm" then { r with bpm := n }
  else if key = "bitrate" then { r with bitrate := n }
  else if key = "sample_rate" then { r with sample_rate := n }
  else r

def setImportedStr (r : Record) (key : String) (v : Str) : Record :=
  if key = "cover" then { r with cover := some v }
  else if key = "track_name" then { r with track_name := v }
  else if key = "artist" then { r with artist := v }
  else if key = "album_artist" then { r with album_artist := v }
  else if key = "album_name" then { r with album_name := v }
  else if key = "genre" then { r with genre := v }
  else if key = "composer" then { r with composer := v }
  else if key = "lyricist" then { r with lyricist := v }
  else if key = "publisher" then { r with publisher := v }
  else if key = "language" then { r with language := v }
  else if key = "comment" then { r with comment := v }
  else if key = "copyright" then { r with copyright := v }
  else if key = "isrc" then { r with isrc := v }
  else r

/-- One `vals.forEach` body iteration (lines 903-918): skip when the
column index resolved to no key; otherwise trim the cell and store it,
coerced by `Number(val) || 0` for number columns and by the colon parser
for the `length` column (whose catalog type is `duration`, not `number`). -/
def applyImportCell (cols : List Column) (r : Record) (k : Option String)
    (v : Str) : Record :=
  match k with
  | none => r
  | some key =>
    let val := trimc v
    match cols.find? (fun c => c.key == key) with
    | none => r
    | some col =>
      if col.type == "number" then setImportedNum r key (jsNumberOr0 val)
      else if col.key == "length" then { r with length := parseLengthCell val }
      else setImportedStr r key val

/-- Fold of `vals.forEach((v, idx) => ...)`: cells are paired positionally
with the key map; cells beyond it are skipped. -/
def applyVals (cols : List Column) : Record → List (Option String) → List Str → Record
  | r, _, [] => r
  | r, [], _ :: _ => r
  | r, k :: ks, v :: vs => applyVals cols (applyImportCell cols r k v) ks vs

/-- One imported data line (lines 899-920): split, apply the cells, then
recompute `length_display` from the imported length. -/
def importRecordOfLine (cols : List Column) (keyMap : List (Option String))
    (d : Char) (line : Str) : Record :=
  let r := applyVals cols importBaseRecord keyMap (splitCSV d line)
  { r with length_display := formatLengthJS r.length }

/-- `parseImport(text, delimiter)` (lines 886-930): trim and line-split;
fewer than two lines alerts `Invalid data format.` and changes nothing;
otherwise the header is resolved to a key map, blank lines are skipped,
each remaining line becomes a record, and the data set is replaced and
reprocessed.  The closing informational alert is not modelled. -/
def parseImport (e : RegexEngine) (st : GridState) (text : Str) (d : Char) :
    GridState × Option String :=
  let lines := splitOnC '\n' (trimc text)
  if lines.length < 2 then (st, some "Invalid data format.")
  else
    match lines with
    | [] => (st, some "Invalid data format.")
    | header :: body =>
      let headers := (splitCSV d header).map trimc
      let keyMap := buildKeyMap st.columns headers
      let newData := (body.filter (fun l => !(trimc l).isEmpty)).map
        (importRecordOfLine st.columns keyMap d)
      (processData e { st with audioData := newData }, none)

/-- A concrete grid state for closed instances. -/
def sampleGrid : GridState :=
  { audioData := [sampleRecord]
  , columns := defaultColumns
  , currentSort := { key := none, asc := true }
  , activeFilters := []
  , visibleData := [sampleRecord] }

/-- C8: both format errors — an export attempt with zero selected columns,
and an import input with fewer than two non-empty lines — produce their
user-visible error message and return every component of the grid state
unchanged; no partial replacement occurs. -/
theorem claim_C8 (e : RegexEngine) (st : GridState) (d : Char) (text : Str)
    (hlines : countNE text < 2) :
    performExport st [] d = (st, some "Select at least one column.", none) ∧
    parseImport e st text d = (st, some "Invalid data format.") := by
  constructor
  · rfl
  · have h2 : (splitOnC '\n' (trimc text)).length < 2 := by
      by_contra hge
      exact absurd (trim_two_lines text (by omega)) (by omega)
    simp only [parseImport]
    rw [if_pos h2]

theorem claim_C8_witness :
    performExport sampleGrid [] ',' = (sampleGrid, some "Select at least one column.", none) ∧
    parseImport rejectAllEngine sampleGrid [' '] ',' = (sampleGrid, some "Invalid data format.") :=
  claim_C8 rejectAllEngine sampleGrid ',' [' '] (by decide)

/-- Rendering of a numeric field on export: `String(val || '')`, so `0`
becomes the empty cell. -/
def numCell (n : Int) : Str := if (n : ℚ) = 0 then [] else ratToStr (n : ℚ)

/-- The cover cell: the stored path, or the empty string for `null`. -/
def coverCell (r : Record) : Str :=
  match r.cover with
  | some s => s
  | none => []

/-- The 21 export cell values of a record, in catalog order. -/
def cellsOf (r : Record) : List Str :=
  [ coverCell r, r.track_name, r.artist, r.album_artist, r.album_name,
    numCell r.year, numCell r.disc_number, numCell r.track_number,
    r.genre, r.composer, r.lyricist, r.publisher, r.language, r.comment,
    numCell r.rating, r.length_display,
    numCell r.bpm, numCell r.bitrate, numCell r.sample_rate,
    r.copyright, r.isrc ]

theorem cellsOf_eq (r : Record) : allKeys.map (exportCell r) = cellsOf r := by
  cases hcov : r.cover <;>
    simp [allKeys, defaultColumns, exportCell, getField, jsStringOrEmpty, cellsOf,
      coverCell, numCell, hcov]

/-- Closed form of a full 21-cell row application: every field is written
once from its positional cell. -/
theorem applyVals_full (v0 v1 v2 v3 v4 v5 v6 v7 v8 v9 v10 v11 v12 v13 v14 v15 v16 v17 v18 v19 v20 : Str) :
    applyVals defaultColumns importBaseRecord (allKeys.map some)
      [v0, v1, v2, v3, v4, v5, v6, v7, v8, v9, v10, v11, v12, v13, v14, v15, v16, v17, v18, v19, v20] =
    { cover := some (trimc v0)
    , track_name := trimc v1, artist := trimc v2, album_artist := trimc v3
    , album_name := trimc v4
    , year := jsNumberOr0 (trimc v5), disc_number := jsNumberOr0 (trimc v6)
    , track_number := jsNumberOr0 (trimc v7)
    , genre := trimc v8, composer := trimc v9, lyricist := trimc v10
    , publisher := trimc v11, language := trimc v12, comment := trimc v13
    , rating := jsNumberOr0 (trimc v14)
    , length := parseLengthCell (trimc v15)
    , bpm := jsNumberOr0 (trimc v16), bitrate := jsNumberOr0 (trimc v17)
    , sample_rate := jsNumberOr0 (trimc v18)
    , copyright := trimc v19, isrc := trimc v20
    , length_display := [], file_path := none } := by
  rfl

theorem applyVals_take16 (v0 v1 v2 v3 v4 v5 v6 v7 v8 v9 v10 v11 v12 v13 v14 v15 : Str) :
    applyVals defaultColumns importBaseRecord (allKeys.map some)
      [v0, v1, v2, v3, v4, v5, v6, v7, v8, v9, v10, v11, v12, v13, v14, v15] =
    { cover := some (trimc v0)
    , track_name := trimc v1
    , artist := trimc v2
    , album_artist := trimc v3
    , album_name := trimc v4
    , year := jsNumberOr0 (trimc v5)
    , disc_number := jsNumberOr0 (trimc v6)
    , track_number := jsNumberOr0 (trimc v7)
    , genre := trimc v8
    , composer := trimc v9
    , lyricist := trimc v10
    , publisher := trimc v11
    , language := trimc v12
    , comment := trimc v13
    , rating := jsNumberOr0 (trimc v14)
    , length := parseLengthCell (trimc v15)
    , bpm := 0
    , bitrate := 0
    , sample_rate := 0
    , copyright := []
    , isrc := []
    , length_display := [], file_path := none } := by
  rfl

theorem applyVals_take17 (v0 v1 v2 v3 v4 v5 v6 v7 v8 v9 v10 v11 v12 v13 v14 v15 v16 : Str) :
    applyVals defaultColumns importBaseRecord (allKeys.map some)
      [v0, v1, v2, v3, v4, v5, v6, v7, v8, v9, v10, v11, v12, v13, v14, v15, v16] =
    { cover := some (trimc v0)
    , track_name := trimc v1
    , artist := trimc v2
    , album_artist := trimc v3
    , album_name := trimc v4
    , year := jsNumberOr0 (trimc v5)
    , disc_number := jsNumberOr0 (trimc v6)
    , track_number := jsNumberOr0 (trimc v7)
    , genre := trimc v8
    , composer := trimc v9
    , lyricist := trimc v10
    , publisher := trimc v11
    , language := trimc v12
    , comment := trimc v13
    , rating := jsNumberOr0 (trimc v14)
    , length := parseLengthCell (trimc v15)
    , bpm := jsNumberOr0 (trimc v16)
    , bitrate := 0
    , sample_rate := 0
    , copyright := []
    , isrc := []
    , length_display := [], file_path := none } := by
  rfl

theorem applyVals_take18 (v0 v1 v2 v3 v4 v5 v6 v7 v8 v9 v10 v11 v12 v13 v14 v15 v16 v17 : Str) :
    applyVals defaultColumns importBaseRecord (allKeys.map some)
      [v0, v1, v2, v3, v4, v5, v6, v7, v8, v9, v10, v11, v12, v13, v14, v15, v16, v17] =
    { cover := some (trimc v0)
    , track_name := trimc v1
    , artist := trimc v2
    , album_artist := trimc v3
    , album_name := trimc v4
    , year := jsNumberOr0 (trimc v5)
    , disc_number := jsNumberOr0 (trimc v6)
    , track_number := jsNumberOr0 (trimc v7)
    , genre := trimc v8
    , composer := trimc v9
    , lyricist := trimc v10
    , publisher := trimc v11
    , language := trimc v12
    , comment := trimc v13
    , rating := jsNumberOr0 (trimc v14)
    , length := parseLengthCell (trimc v15)
    , bpm := jsNumberOr0 (trimc v16)
    , bitrate := jsNumberOr0 (trimc v17)
    , sample_rate := 0
    , copyright := []
    , isrc := []
    , length_display := [], file_path := none } := by
  rfl

theorem applyVals_take19 (v0 v1 v2 v3 v4 v5 v6 v7 v8 v9 v10 v11 v12 v13 v14 v15 v16 v17 v18 : Str) :
    applyVals defaultColumns importBaseRecord (allKeys.map some)
      [v0, v1, v2, v3, v4, v5, v6, v7, v8, v9, v10, v11, v12, v13, v14, v15, v16, v17, v18] =
    { cover := some (trimc v0)
    , track_name := trimc v1
    , artist := trimc v2
    , album_artist := trimc v3
    , album_name := trimc v4
    , year := jsNumberOr0 (trimc v5)
    , disc_number := jsNumberOr0 (trimc v6)
    , track_number := jsNumberOr0 (trimc v7)
    , genre := trimc v8
    , composer := trimc v9
    , lyricist := trimc v10
    , publisher := trimc v11
    , language := trimc v12
    , comment := trimc v13
    , rating := jsNumberOr0 (trimc v14)
    , length := parseLengthCell (trimc v15)
    , bpm := jsNumberOr0 (trimc v16)
    , bitrate := jsNumberOr0 (trimc v17)
    , sample_rate := jsNumberOr0 (trimc v18)
    , copyright := []
    , isrc := []
    , length_display := [], file_path := none } := by
  rfl

theorem applyVals_take20 (v0 v1 v2 v3 v4 v5 v6 v7 v8 v9 v10 v11 v12 v13 v14 v15 v16 v17 v18 v19 : Str) :
    applyVals defaultColumns importBaseRecord (allKeys.map some)
      [v0, v1, v2, v3, v4, v5, v6, v7, v8, v9, v10, v11, v12, v13, v14, v15, v16, v17, v18, v19] =
    { cover := some (trimc v0)
    , track_name := trimc v1
    , artist := trimc v2
    , album_artist := trimc v3
    , album_name := trimc v4
    , year := jsNumberOr0 (trimc v5)
    , disc_number := jsNumberOr0 (trimc v6)
    , track_number := jsNumberOr0 (trimc v7)
    , genre := trimc v8
    , composer := trimc v9
    , lyricist := trimc v10
    , publisher := trimc v11
    , language := trimc v12
    , comment := trimc v13
    , rating := jsNumberOr0 (trimc v14)
    , length := parseLengthCell (trimc v15)
    , bpm := jsNumberOr0 (trimc v16)
    , bitrate := jsNumberOr0 (trimc v17)
    , sample_rate := jsNumberOr0 (trimc v18)
    , copyright := trimc v19
    , isrc := []
    , length_display := [], file_path := none } := by
  rfl

theorem format_length_natCast (n : ℕ) : format_length (n : ℚ) = formatLengthSpec n := by
  by_cases hn : n = 0
  · subst hn
    show format_length 0 = formatLengthSpec 0
    rw [format_length, if_pos rfl]
    decide
  · have h0 : (0 : ℚ) ≤ (n : ℚ) := by positivity
    have hne : (n : ℚ) ≠ 0 := by
      simpa using hn
    rw [format_length_eq_spec (n : ℚ) h0 hne]
    rw [show (⌊(n : ℚ)⌋.toNat) = n by rw [Int.floor_natCast]; simp]

theorem formatLengthJS_natCast (n : ℕ) : formatLengthJS (n : ℚ) = formatLengthSpec n := by
  rw [← format_length_eq_JS (n : ℚ) (by positivity), format_length_natCast]

theorem pad2n_digits (n : ℕ) : ∀ c ∈ pad2n n, isDigitChar c = true := by
  intro c hc
  rw [pad2n] at hc
  by_cases h : n < 10
  · rw [if_pos h] at hc
    rcases List.mem_cons.mp hc with h1 | h1
    · subst h1
      decide
    · exact natDigits_all_digits n c h1
  · rw [if_neg h] at hc
    exact natDigits_all_digits n c hc

theorem formatLengthSpec_chars (n : ℕ) :
    ∀ c ∈ formatLengthSpec n, isDigitChar c = true ∨ c = ':' := by
  intro c hc
  rw [formatLengthSpec] at hc
  by_cases h : n / 3600 = 0
  · rw [if_pos h] at hc
    rcases List.mem_append.mp hc with h1 | h1
    · exact Or.inl (natDigits_all_digits _ c h1)
    · rcases List.mem_cons.mp h1 with h2 | h2
      · exact Or.inr h2
      · exact Or.inl (pad2n_digits _ c h2)
  · rw [if_neg h] at hc
    rcases List.mem_append.mp hc with h1 | h1
    · exact Or.inl (natDigits_all_digits _ c h1)
    · rcases List.mem_cons.mp h1 with h2 | h2
      · exact Or.inr h2
      · rcases List.mem_append.mp h2 with h3 | h3
        · exact Or.inl (pad2n_digits _ c h3)
        · rcases List.mem_cons.mp h3 with h4 | h4
          · exact Or.inr h4
          · exact Or.inl (pad2n_digits _ c h4)

theorem formatLengthSpec_ne_nil (n : ℕ) : formatLengthSpec n ≠ [] := by
  rw [formatLengthSpec]
  by_cases h : n / 3600 = 0
  · rw [if_pos h]
    intro hcontra
    exact natDigits_ne_nil _ (by simpa using (List.append_eq_nil.mp hcontra).1)
  · rw [if_neg h]
    intro hcontra
    exact natDigits_ne_nil _ (by simpa using (List.append_eq_nil.mp hcontra).1)

theorem numCell_chars (n : Int) : ∀ c ∈ numCell n, c = '-' ∨ isDigitChar c = true := by
  intro c hc
  rw [numCell] at hc
  by_cases h : (n : ℚ) = 0
  · rw [if_pos h] at hc
    simp at hc
  · rw [if_neg h] at hc
    rw [ratToStr] at hc
    have hden : ((n : ℚ)).den = 1 := Rat.intCast_den n
    rw [if_pos hden] at hc
    have hnum : ((n : ℚ)).num = n := Rat.intCast_num n
    rw [hnum, intToStr] at hc
    by_cases hneg : n < 0
    · rw [if_pos hneg] at hc
      rcases List.mem_cons.mp hc with h1 | h1
      · exact Or.inl h1
      · exact Or.inr (natDigits_all_digits _ c h1)
    · rw [if_neg hneg] at hc
      exact Or.inr (natDigits_all_digits _ c hc)

theorem mem_doubleQuotes (s : Str) (c : Char) : c ∈ doubleQuotes s ↔ c ∈ s := by
  induction s with
  | nil => simp [doubleQuotes]
  | cons a s' ih =>
    rw [doubleQuotes_cons]
    by_cases ha : a = '"'
    · subst ha
      simp only [List.mem_append, ih, List.mem_cons]
      constructor
      · rintro (h | h)
        · simp at h
          simp [h]
        · simp [h]
      · rintro (h | h)
        · subst h
          simp
        · simp [h]
    · have hb : (a == '"') = false := by simp [ha]
      simp [hb, ih]

theorem mem_escapeCSVc_of (d : Char) (s : Str) (c : Char) (h : c ∈ s) :
    c ∈ escapeCSVc d s := by
  rw [escapeCSVc_eq]
  by_cases hesc : needsEscape d s = true
  · rw [if_pos hesc]
    simp [mem_doubleQuotes, h]
  · rw [if_neg hesc]
    exact h

theorem mem_escapeCSVc_inv (d : Char) (s : Str) (c : Char) (h : c ∈ escapeCSVc d s) :
    c ∈ s ∨ c = '"' := by
  rw [escapeCSVc_eq] at h
  by_cases hesc : needsEscape d s = true
  · rw [if_pos hesc] at h
    rcases List.mem_cons.mp h with h1 | h1
    · exact Or.inr h1
    · rcases List.mem_append.mp h1 with h2 | h2
      · exact Or.inl ((mem_doubleQuotes s c).mp h2)
      · rcases List.mem_cons.mp h2 with h3 | h3
        · exact Or.inr h3
        · simp at h3
  · rw [if_neg hesc] at h
    exact Or.inl h

theorem mem_joinCells_of_cell (d : Char) :
    ∀ cells : List Str, ∀ cell ∈ cells, ∀ c ∈ cell, c ∈ joinCells d cells := by
  intro cells
  induction cells with
  | nil => intro cell h; simp at h
  | cons x cs ih =>
    intro cell hcell c hc
    cases cs with
    | nil =>
      simp at hcell
      subst hcell
      exact hc
    | cons y cs' =>
      rw [joinCells_cons₂]
      rcases List.mem_cons.mp hcell with h1 | h1
      · subst h1
        simp [hc]
      · have := ih cell h1 c hc
        simp [this]

theorem mem_joinCells_inv (d : Char) :
    ∀ cells : List Str, ∀ c ∈ joinCells d cells,
      c = d ∨ ∃ cell ∈ cells, c ∈ cell := by
  intro cells
  induction cells with
  | nil => intro c h; simp [joinCells] at h
  | cons x cs ih =>
    intro c hc
    cases cs with
    | nil =>
      exact Or.inr ⟨x, by simp, hc⟩
    | cons y cs' =>
      rw [joinCells_cons₂] at hc
      rcases List.mem_append.mp hc with h1 | h1
      · exact Or.inr ⟨x, by simp, h1⟩
      · rcases List.mem_cons.mp h1 with h2 | h2
        · exact Or.inl h2
        · rcases ih c h2 with h3 | ⟨cell, hcell, hc3⟩
          · exact Or.inl h3
          · exact Or.inr ⟨cell, by simp [hcell], hc3⟩

theorem trimc_decomp (l : Str) :
    ∃ w1 w2 : Str, l = w1 ++ trimc l ++ w2 ∧
      (∀ c ∈ w1, isWsChar c = true) ∧ (∀ c ∈ w2, isWsChar c = true) := by
  obtain ⟨w1, hw1, h1⟩ := dropLeadWs_decomp l
  obtain ⟨w2, hw2, h2⟩ := dropTrailWs_decomp (dropLeadWs l)
  refine ⟨w1, w2, ?_, h1, h2⟩
  calc l = w1 ++ dropLeadWs l := hw1
  _ = w1 ++ (dropTrailWs (dropLeadWs l) ++ w2) := congrArg (fun x => w1 ++ x) hw2
  _ = w1 ++ trimc l ++ w2 := by rw [trimc, List.append_assoc]

theorem trimc_ne_nil_of_mem (l : Str) (c : Char) (hc : c ∈ l)
    (hws : isWsChar c = false) : trimc l ≠ [] := by
  intro hnil
  obtain ⟨w1, w2, hl, h1, h2⟩ := trimc_decomp l
  rw [hnil] at hl
  rw [hl] at hc
  rcases List.mem_append.mp hc with h | h
  · rcases List.mem_append.mp h with h' | h'
    · rw [h1 c h'] at hws
      exact absurd hws (by simp)
    · simp at h'
  · rw [h2 c h] at hws
    exact absurd hws (by simp)

theorem dropTrailWs_ne_nil_of_mem (l : Str) (c : Char) (hc : c ∈ l)
    (hws : isWsChar c = false) : dropTrailWs l ≠ [] := by
  intro hnil
  obtain ⟨w, hw, hws'⟩ := dropTrailWs_decomp l
  rw [hnil] at hw
  simp at hw
  rw [hw] at hc
  rw [hws' c hc] at hws
  exact absurd hws (by simp)

theorem dropTrailWs_concat_nonws (X : Str) (a : Char) (ha : isWsChar a = false) :
    dropTrailWs (X ++ [a]) = X ++ [a] := by
  rw [dropTrailWs, List.reverse_append]
  show ((a :: X.reverse).dropWhile isWsChar).reverse = _
  rw [List.dropWhile_cons, if_neg (by simp [ha])]
  simp

theorem dropTrailWs_concat_ws (X : Str) (a : Char) (ha : isWsChar a = true) :
    dropTrailWs (X ++ [a]) = dropTrailWs X := by
  rw [dropTrailWs, dropTrailWs, List.reverse_append]
  show ((a :: X.reverse).dropWhile isWsChar).reverse = _
  rw [List.dropWhile_cons, if_pos (by simp [ha])]

theorem dropTrailWs_length_le (l : Str) : (dropTrailWs l).length ≤ l.length := by
  rw [dropTrailWs]
  calc (l.reverse.dropWhile isWsChar).reverse.length
      = (l.reverse.dropWhile isWsChar).length := List.length_reverse _
  _ ≤ l.reverse.length := (List.dropWhile_suffix isWsChar).length_le
  _ = l.length := List.length_reverse _

theorem stable_of_trimc_stable (l : Str) (h : trimc l = l) :
    dropLeadWs l = l ∧ dropTrailWs l = l := by
  have hsuf : dropLeadWs l <:+ l := List.dropWhile_suffix isWsChar
  have hlen1 : (dropLeadWs l).length ≤ l.length := List.IsSuffix.length_le hsuf
  have hlen2 : (trimc l).length ≤ (dropLeadWs l).length := dropTrailWs_length_le _
  rw [h] at hlen2
  have hdl : dropLeadWs l = l := List.IsSuffix.eq_of_length hsuf (by omega)
  refine ⟨hdl, ?_⟩
  rw [trimc, hdl] at h
  exact h

theorem ends_nonws_of_stable (c : Str) (hc : dropTrailWs c = c) (hne : c ≠ []) :
    ∃ c' a, c = c' ++ [a] ∧ isWsChar a = false := by
  rcases List.eq_nil_or_concat c with h | ⟨c', a, h⟩
  · exact absurd h hne
  · rw [List.concat_eq_append] at h
    refine ⟨c', a, h, ?_⟩
    by_contra hws
    have hws' : isWsChar a = true := by
      cases hb : isWsChar a
      · exact absurd hb hws
      · rfl
    have := dropTrailWs_concat_ws c' a hws'
    rw [← h] at this
    rw [hc] at this
    have hlen := dropTrailWs_length_le c'
    rw [← this] at hlen
    rw [h] at hlen
    simp at hlen

theorem escapeCSVc_stable (d : Char) (c : Str) (hc : dropTrailWs c = c) :
    dropTrailWs (escapeCSVc d c) = escapeCSVc d c := by
  rw [escapeCSVc_eq]
  by_cases hesc : needsEscape d c = true
  · rw [if_pos hesc]
    rw [show ('"' :: doubleQuotes c ++ ['"'] : Str) = ('"' :: doubleQuotes c) ++ ['"'] by simp]
    exact dropTrailWs_concat_nonws _ '"' (by decide)
  · rw [if_neg hesc]
    exact hc

theorem escapeCSVc_eq_nil_iff (d : Char) (c : Str) : escapeCSVc d c = [] ↔ c = [] := by
  rw [escapeCSVc_eq]
  by_cases hesc : needsEscape d c = true
  · rw [if_pos hesc]
    constructor
    · intro h
      simp at h
    · intro h
      subst h
      simp [needsEscape] at hesc
  · rw [if_neg hesc]

theorem joinCells_append_last (d : Char) (c : Str) :
    ∀ cs : List Str, ∀ x : Str,
      joinCells d ((x :: cs) ++ [c]) = joinCells d (x :: cs) ++ d :: c := by
  intro cs
  induction cs with
  | nil => intro x; rfl
  | cons y cs' ih =>
    intro x
    have ih' : joinCells d (y :: (cs' ++ [c])) = joinCells d (y :: cs') ++ d :: c := ih y
    show joinCells d (x :: (y :: cs' ++ [c])) = _
    rw [List.cons_append y cs' [c]]
    rw [joinCells_cons₂ d x y (cs' ++ [c]), ih', joinCells_cons₂ d x y cs']
    simp

/-- Joining with a non-whitespace delimiter preserves trailing-trim
stability of the cells. -/
theorem dropTrailWs_joinCells_nonws (d : Char) (hd : isWsChar d = false) :
    ∀ cells : List Str, (∀ c ∈ cells, dropTrailWs c = c) →
      dropTrailWs (joinCells d cells) = joinCells d cells := by
  intro cells
  induction cells using List.reverseRecOn with
  | nil => intro _; rfl
  | append_singleton cs c ih =>
    intro h
    cases cs with
    | nil =>
      show dropTrailWs (joinCells d [c]) = joinCells d [c]
      show dropTrailWs c = c
      exact h c (by simp)
    | cons x cs' =>
      have hjoin : joinCells d ((x :: cs') ++ [c]) = joinCells d (x :: cs') ++ d :: c :=
        joinCells_append_last d c cs' x
      rw [hjoin]
      have hc := h c (by simp)
      by_cases hcn : c = []
      · subst hcn
        rw [show (joinCells d (x :: cs') ++ d :: ([] : Str)) = joinCells d (x :: cs') ++ [d] by simp]
        exact dropTrailWs_concat_nonws _ d hd
      · obtain ⟨c', a, hca, hans⟩ := ends_nonws_of_stable c hc hcn
        rw [hca, show (joinCells d (x :: cs') ++ d :: (c' ++ [a]) : Str)
            = (joinCells d (x :: cs') ++ d :: c') ++ [a] by simp]
        exact dropTrailWs_concat_nonws _ a hans

/-- Remove trailing empty cells. -/
def dropTrailEmpties (ls : List Str) : List Str :=
  (ls.reverse.dropWhile List.isEmpty).reverse

/-- Joining with a whitespace delimiter: trailing trim removes exactly
the trailing empty cells (with their delimiters). -/
theorem dropTrailWs_joinCells_ws (d : Char) (hd : isWsChar d = true) :
    ∀ cells : List Str, (∀ c ∈ cells, dropTrailWs c = c) →
      dropTrailWs (joinCells d cells) = joinCells d (dropTrailEmpties cells) := by
  intro cells
  induction cells using List.reverseRecOn with
  | nil => intro _; rfl
  | append_singleton cs c ih =>
    intro h
    by_cases hcn : c = []
    · subst hcn
      have hdte : dropTrailEmpties (cs ++ [([] : Str)]) = dropTrailEmpties cs := by
        rw [dropTrailEmpties, dropTrailEmpties, List.reverse_append]
        show ((([] : Str) :: cs.reverse).dropWhile List.isEmpty).reverse = _
        rw [List.dropWhile_cons, if_pos (by simp)]
      rw [hdte]
      cases cs with
      | nil => rfl
      | cons x cs' =>
        rw [joinCells_append_last d [] cs' x]
        rw [show (joinCells d (x :: cs') ++ d :: ([] : Str)) = joinCells d (x :: cs') ++ [d] by simp]
        rw [dropTrailWs_concat_ws _ d hd]
        exact ih (fun c' hc' => h c' (List.mem_append_left _ hc'))
    · have hdte : dropTrailEmpties (cs ++ [c]) = cs ++ [c] := by
        rw [dropTrailEmpties, List.reverse_append]
        show ((c :: cs.reverse).dropWhile List.isEmpty).reverse = _
        rw [List.dropWhile_cons, if_neg (by simp [hcn])]
        simp
      rw [hdte]
      have hc := h c (by simp)
      obtain ⟨c', a, hca, hans⟩ := ends_nonws_of_stable c hc hcn
      cases cs with
      | nil =>
        show dropTrailWs (joinCells d [c]) = joinCells d [c]
        show dropTrailWs c = c
        exact hc
      | cons x cs' =>
        rw [joinCells_append_last d c cs' x, hca,
          show (joinCells d (x :: cs') ++ d :: (c' ++ [a]) : Str)
            = (joinCells d (x :: cs') ++ d :: c') ++ [a] by simp]
        exact dropTrailWs_concat_nonws _ a hans

theorem dropWhile_congr_local {α : Type} (p q : α → Bool) :
    ∀ l : List α, (∀ x ∈ l, p x = q x) → l.dropWhile p = l.dropWhile q := by
  intro l
  induction l with
  | nil => intro _; rfl
  | cons a l' ih =>
    intro h
    rw [List.dropWhile_cons, List.dropWhile_cons, h a (by simp)]
    by_cases hq : q a = true
    · rw [if_pos hq, if_pos hq]
      exact ih (fun x hx => h x (by simp [hx]))
    · rw [if_neg hq, if_neg hq]

theorem dropTrailEmpties_map_escape (d : Char) (cells : List Str) :
    dropTrailEmpties (cells.map (escapeCSVc d)) = (dropTrailEmpties cells).map (escapeCSVc d) := by
  have hpt : ∀ c : Str, (escapeCSVc d c).isEmpty = c.isEmpty := by
    intro c
    cases c with
    | nil => rfl
    | cons a l =>
      have hne : (a :: l : Str) ≠ [] := by simp
      have h2 := (escapeCSVc_eq_nil_iff d (a :: l)).not.mpr hne
      cases hx : escapeCSVc d (a :: l) with
      | nil => exact absurd hx h2
      | cons b m => rfl
  rw [dropTrailEmpties, dropTrailEmpties, ← List.map_reverse, List.dropWhile_map,
    ← List.map_reverse]
  congr 2
  exact dropWhile_congr_local _ _ _ (fun x _ => hpt x)

/-- The kept cells are an initial segment, and the removed cells are
empty. -/
theorem dropTrailEmpties_decomp (ls : List Str) :
    ∃ pad : List Str, ls = dropTrailEmpties ls ++ pad ∧ ∀ p ∈ pad, p = [] := by
  refine ⟨(ls.reverse.takeWhile List.isEmpty).reverse, ?_, ?_⟩
  · calc ls = ls.reverse.reverse := by simp
    _ = (ls.reverse.takeWhile List.isEmpty ++ ls.reverse.dropWhile List.isEmpty).reverse := by
        rw [List.takeWhile_append_dropWhile]
    _ = (ls.reverse.dropWhile List.isEmpty).reverse ++ (ls.reverse.takeWhile List.isEmpty).reverse := by
        rw [List.reverse_append]
    _ = dropTrailEmpties ls ++ (ls.reverse.takeWhile List.isEmpty).reverse := rfl
  · intro p hp
    rw [List.mem_reverse] at hp
    have := List.mem_takeWhile_imp hp
    cases p
    · rfl
    · simp at this

/-- Cells whose export escape parses back to themselves. -/
theorem importedCellOf_eq_self (d : Char) (c : Str)
    (hq : ¬(c ≠ [] ∧ c.all (fun ch => ch == '"') = true)) :
    importedCellOf d c = c := by
  rw [importedCellOf]
  by_cases hesc : needsEscape d c = true
  · rw [if_pos hesc, parsedCell]
    have hcn : c ≠ [] := by
      intro h
      subst h
      simp [needsEscape] at hesc
    rw [if_neg]
    intro hall
    exact hq ⟨hcn, hall⟩
  · rw [if_neg hesc]

theorem not_contains_of_not_mem (s : Str) (ch : Char) (h : ch ∉ s) :
    s.contains ch = false := by
  cases hb : s.contains ch
  · rfl
  · exact absurd (mem_of_contains hb) h

theorem needsEscape_eq_false (d : Char) (s : Str) (h1 : d ∉ s) (h2 : '"' ∉ s)
    (h3 : '\n' ∉ s) : needsEscape d s = false := by
  rw [needsEscape, not_contains_of_not_mem s d h1, not_contains_of_not_mem s '"' h2,
    not_contains_of_not_mem s '\n' h3]
  rfl

theorem not_mem_numCell (n : Int) (ch : Char) (h1 : ch ≠ '-')
    (h2 : isDigitChar ch = false) : ch ∉ numCell n := by
  intro hm
  rcases numCell_chars n ch hm with h | h
  · exact h1 h
  · rw [h] at h2
    exact absurd h2 (by simp)

theorem not_mem_formatLengthSpec (n : ℕ) (ch : Char) (h1 : isDigitChar ch = false)
    (h2 : ch ≠ ':') : ch ∉ formatLengthSpec n := by
  intro hm
  rcases formatLengthSpec_chars n ch hm with h | h
  · rw [h] at h1
    exact absurd h1 (by simp)
  · exact h2 h

theorem numCell_no_ws (n : Int) : ∀ c ∈ numCell n, isWsChar c = false := by
  intro c hc
  rcases numCell_chars n c hc with h | h
  · subst h
    decide
  · exact isWsChar_of_digit c h

theorem trimc_numCell (n : Int) : trimc (numCell n) = numCell n :=
  trimc_of_no_ws _ (numCell_no_ws n)

theorem formatLengthSpec_no_ws (n : ℕ) : ∀ c ∈ formatLengthSpec n, isWsChar c = false := by
  intro c hc
  rcases formatLengthSpec_chars n c hc with h | h
  · exact isWsChar_of_digit c h
  · subst h
    decide

theorem trimc_formatLengthSpec (n : ℕ) : trimc (formatLengthSpec n) = formatLengthSpec n :=
  trimc_of_no_ws _ (formatLengthSpec_no_ws n)

theorem numCell_roundtrip (n : Int) : jsNumberOr0 (trimc (numCell n)) = n := by
  rw [trimc_numCell, numCell]
  by_cases h : (n : ℚ) = 0
  · rw [if_pos h]
    have hn : n = 0 := by exact_mod_cast h
    subst hn
    rfl
  · rw [if_neg h, ratToStr, if_pos (Rat.intCast_den n), Rat.intCast_num,
      jsNumberOr0, jsToNumberInt_intToStr]
    rfl

theorem numCell_eq_nil (n : Int) (h : numCell n = []) : n = 0 := by
  rw [numCell] at h
  by_cases hq : (n : ℚ) = 0
  · exact_mod_cast hq
  · rw [if_neg hq, ratToStr, if_pos (Rat.intCast_den n), Rat.intCast_num, intToStr] at h
    by_cases hneg : n < 0
    · rw [if_pos hneg] at h
      simp at h
    · rw [if_neg hneg] at h
      exact absurd h (natDigits_ne_nil _)

/-- The four delimiters offered by the page. -/
def D4 (d : Char) : Prop := d = ',' ∨ d = '\t' ∨ d = ';' ∨ d = '|'

theorem D4_facts (d : Char) (hd : D4 d) :
    (d == '"') = false ∧ isDigitChar d = false ∧ d ≠ '-' ∧ d ≠ ':' ∧
      d ≠ '\n' ∧ d ≠ '"' := by
  rcases hd with h | h | h | h <;> subst h <;> refine ⟨rfl, rfl, ?_, ?_, ?_, ?_⟩ <;> decide

/-- A text value that survives the import pipeline verbatim: stable under
`trim`, free of newlines (which would break the line structure), and not a
non-empty all-quotes string (the one value `splitCSV` mangles). -/
def goodText (s : Str) : Prop :=
  trimc s = s ∧ '\n' ∉ s ∧ ¬(s ≠ [] ∧ s.all (fun c => c == '"') = true)

/-- Hypotheses on a record under which the export/import round trip is
exact on the guaranteed fields. -/
structure GoodRecord (r : Record) : Prop where
  tn : goodText r.track_name
  ar : goodText r.artist
  aa : goodText r.album_artist
  al : goodText r.album_name
  ge : goodText r.genre
  cm : goodText r.composer
  ly : goodText r.lyricist
  pb : goodText r.publisher
  lg : goodText r.language
  co : goodText r.comment
  cp : goodText r.copyright
  ic : goodText r.isrc
  cov : ∀ s, r.cover = some s → trimc s = s ∧ '\n' ∉ s
  len : ∃ n : ℕ, r.length = (n : ℚ) ∧ r.length_display = formatLengthSpec n

/-- Agreement on every guaranteed (text / numeric / duration) field;
`cover` and `file_path` are exempt. -/
def coreAgree (r r' : Record) : Prop :=
  r'.track_name = r.track_name ∧ r'.artist = r.artist ∧
  r'.album_artist = r.album_artist ∧ r'.album_name = r.album_name ∧
  r'.genre = r.genre ∧ r'.composer = r.composer ∧ r'.lyricist = r.lyricist ∧
  r'.publisher = r.publisher ∧ r'.language = r.language ∧
  r'.comment = r.comment ∧ r'.copyright = r.copyright ∧ r'.isrc = r.isrc ∧
  r'.year = r.year ∧ r'.disc_number = r.disc_number ∧
  r'.track_number = r.track_number ∧ r'.rating = r.rating ∧
  r'.bpm = r.bpm ∧ r'.bitrate = r.bitrate ∧ r'.sample_rate = r.sample_rate ∧
  r'.length = r.length ∧ r'.length_display = r.length_display

instance (r r' : Record) : Decidable (coreAgree r r') := by
  rw [coreAgree]
  infer_instance

theorem cell_trim_stable (d : Char) (hd : D4 d) (r : Record) (hr : GoodRecord r) :
    ∀ c ∈ (cellsOf r).map (escapeCSVc d), dropTrailWs c = c := by
  obtain ⟨n, hlen, hdisp⟩ := hr.len
  intro c hc
  rw [List.mem_map] at hc
  obtain ⟨v, hv, hvc⟩ := hc
  subst hvc
  apply escapeCSVc_stable
  rw [cellsOf] at hv
  simp only [List.mem_cons, List.not_mem_nil, or_false] at hv
  have hstab : trimc v = v := by
    rcases hv with h|h|h|h|h|h|h|h|h|h|h|h|h|h|h|h|h|h|h|h|h
    · subst h
      rw [coverCell]
      cases hcov : r.cover with
      | none => rfl
      | some s => exact (hr.cov s hcov).1
    · subst h; exact hr.tn.1
    · subst h; exact hr.ar.1
    · subst h; exact hr.aa.1
    · subst h; exact hr.al.1
    · subst h; exact trimc_numCell _
    · subst h; exact trimc_numCell _
    · subst h; exact trimc_numCell _
    · subst h; exact hr.ge.1
    · subst h; exact hr.cm.1
    · subst h; exact hr.ly.1
    · subst h; exact hr.pb.1
    · subst h; exact hr.lg.1
    · subst h; exact hr.co.1
    · subst h; exact trimc_numCell _
    · subst h
      rw [hdisp]
      exact trimc_formatLengthSpec n
    · subst h; exact trimc_numCell _
    · subst h; exact trimc_numCell _
    · subst h; exact trimc_numCell _
    · subst h; exact hr.cp.1
    · subst h; exact hr.ic.1
  exact (stable_of_trimc_stable v hstab).2

theorem exportRow_eq (d : Char) (r : Record) :
    exportRow d allKeys r = joinCells d ((cellsOf r).map (escapeCSVc d)) := by
  rw [exportRow, ← cellsOf_eq r, List.map_map]
  rfl

theorem cells_no_newline (r : Record) (hr : GoodRecord r) :
    ∀ v ∈ cellsOf r, '\n' ∉ v := by
  obtain ⟨n, hlen, hdisp⟩ := hr.len
  intro v hv
  rw [cellsOf] at hv
  simp only [List.mem_cons, List.not_mem_nil, or_false] at hv
  rcases hv with h|h|h|h|h|h|h|h|h|h|h|h|h|h|h|h|h|h|h|h|h
  · subst h
    rw [coverCell]
    cases hcov : r.cover with
    | none => simp
    | some s => exact (hr.cov s hcov).2
  · subst h; exact hr.tn.2.1
  · subst h; exact hr.ar.2.1
  · subst h; exact hr.aa.2.1
  · subst h; exact hr.al.2.1
  · subst h; exact not_mem_numCell _ _ (by decide) (by decide)
  · subst h; exact not_mem_numCell _ _ (by decide) (by decide)
  · subst h; exact not_mem_numCell _ _ (by decide) (by decide)
  · subst h; exact hr.ge.2.1
  · subst h; exact hr.cm.2.1
  · subst h; exact hr.ly.2.1
  · subst h; exact hr.pb.2.1
  · subst h; exact hr.lg.2.1
  · subst h; exact hr.co.2.1
  · subst h; exact not_mem_numCell _ _ (by decide) (by decide)
  · subst h
    rw [hdisp]
    exact not_mem_formatLengthSpec n _ (by decide) (by decide)
  · subst h; exact not_mem_numCell _ _ (by decide) (by decide)
  · subst h; exact not_mem_numCell _ _ (by decide) (by decide)
  · subst h; exact not_mem_numCell _ _ (by decide) (by decide)
  · subst h; exact hr.cp.2.1
  · subst h; exact hr.ic.2.1

theorem row_no_newline (d : Char) (hd : D4 d) (r : Record) (hr : GoodRecord r) :
    '\n' ∉ exportRow d allKeys r := by
  obtain ⟨_, _, _, _, hdn, hdq⟩ := D4_facts d hd
  rw [exportRow_eq]
  intro hmem
  rcases mem_joinCells_inv d _ '\n' hmem with h | ⟨cell, hcell, hc⟩
  · exact hdn h.symm
  · rw [List.mem_map] at hcell
    obtain ⟨v, hv, hvc⟩ := hcell
    subst hvc
    rcases mem_escapeCSVc_inv d v '\n' hc with h1 | h1
    · exact cells_no_newline r hr v hv h1
    · exact absurd h1 (by decide)

theorem importedCellOf_numCell (d : Char) (hd : D4 d) (n : Int) :
    importedCellOf d (numCell n) = numCell n := by
  obtain ⟨_, hdig, hdash, _, _, hdq⟩ := D4_facts d hd
  rw [importedCellOf, if_neg]
  rw [needsEscape_eq_false d _ (not_mem_numCell n d (fun h => hdash h) hdig)
    (not_mem_numCell n '"' (by decide) (by decide))
    (not_mem_numCell n '\n' (by decide) (by decide))]
  simp

theorem importedCellOf_display (d : Char) (hd : D4 d) (n : ℕ) :
    importedCellOf d (formatLengthSpec n) = formatLengthSpec n := by
  obtain ⟨_, hdig, _, hcolon, _, hdq⟩ := D4_facts d hd
  rw [importedCellOf, if_neg]
  rw [needsEscape_eq_false d _ (not_mem_formatLengthSpec n d hdig hcolon)
    (not_mem_formatLengthSpec n '"' (by decide) (by decide))
    (not_mem_formatLengthSpec n '\n' (by decide) (by decide))]
  simp

theorem cells_parsed (d : Char) (hd : D4 d) (r : Record) (hr : GoodRecord r) :
    (cellsOf r).map (importedCellOf d) =
      importedCellOf d (coverCell r) ::
        [r.track_name, r.artist, r.album_artist, r.album_name,
         numCell r.year, numCell r.disc_number, numCell r.track_number,
         r.genre, r.composer, r.lyricist, r.publisher, r.language, r.comment,
         numCell r.rating, r.length_display,
         numCell r.bpm, numCell r.bitrate, numCell r.sample_rate,
         r.copyright, r.isrc] := by
  obtain ⟨n, hlen, hdisp⟩ := hr.len
  simp only [cellsOf, List.map_cons, List.map_nil]
  rw [importedCellOf_eq_self d r.track_name hr.tn.2.2,
    importedCellOf_eq_self d r.artist hr.ar.2.2,
    importedCellOf_eq_self d r.album_artist hr.aa.2.2,
    importedCellOf_eq_self d r.album_name hr.al.2.2,
    importedCellOf_numCell d hd r.year,
    importedCellOf_numCell d hd r.disc_number,
    importedCellOf_numCell d hd r.track_number,
    importedCellOf_eq_self d r.genre hr.ge.2.2,
    importedCellOf_eq_self d r.composer hr.cm.2.2,
    importedCellOf_eq_self d r.lyricist hr.ly.2.2,
    importedCellOf_eq_self d r.publisher hr.pb.2.2,
    importedCellOf_eq_self d r.language hr.lg.2.2,
    importedCellOf_eq_self d r.comment hr.co.2.2,
    importedCellOf_numCell d hd r.rating,
    importedCellOf_numCell d hd r.bpm,
    importedCellOf_numCell d hd r.bitrate,
    importedCellOf_numCell d hd r.sample_rate,
    importedCellOf_eq_self d r.copyright hr.cp.2.2,
    importedCellOf_eq_self d r.isrc hr.ic.2.2,
    hdisp, importedCellOf_display d hd n]

theorem splitOnC_joinCells (sep : Char) :
    ∀ lines : List Str, lines ≠ [] → (∀ l ∈ lines, sep ∉ l) →
      splitOnC sep (joinCells sep lines) = lines := by
  intro lines
  induction lines with
  | nil => intro h; exact absurd rfl h
  | cons l ls ih =>
    intro _ hfree
    cases ls with
    | nil =>
      show splitOnC sep l = [l]
      exact splitOnC_of_not_mem sep l (hfree l (by simp))
    | cons l2 ls2 =>
      rw [joinCells_cons₂, splitOnC_append]
      rw [splitOnC_of_not_mem sep l (hfree l (by simp))]
      rw [ih (by simp) (fun x hx => hfree x (by simp [hx]))]
      rfl

theorem splitCSV_exportRow (d : Char) (hd : D4 d) (r : Record) (hr : GoodRecord r) :
    splitCSV d (exportRow d allKeys r) =
      importedCellOf d (coverCell r) ::
        [r.track_name, r.artist, r.album_artist, r.album_name,
         numCell r.year, numCell r.disc_number, numCell r.track_number,
         r.genre, r.composer, r.lyricist, r.publisher, r.language, r.comment,
         numCell r.rating, r.length_display,
         numCell r.bpm, numCell r.bitrate, numCell r.sample_rate,
         r.copyright, r.isrc] := by
  obtain ⟨hdq, _, _, _, _, _⟩ := D4_facts d hd
  rw [exportRow_eq, splitCSV_join d hdq (cellsOf r) (by simp [cellsOf]),
    cells_parsed d hd r hr]

theorem importRow_untrimmed (d : Char) (hd : D4 d) (r : Record) (hr : GoodRecord r) :
    coreAgree r (importRecordOfLine defaultColumns (allKeys.map some) d
      (exportRow d allKeys r)) := by
  obtain ⟨n, hlen, hdisp⟩ := hr.len
  have hlength : parseLengthCell (trimc r.length_display) = r.length := by
    rw [hdisp, trimc_formatLengthSpec, parseLengthCell_formatSpec, hlen]
  have hld : formatLengthJS (parseLengthCell (trimc r.length_display)) = r.length_display := by
    rw [hlength, hlen, formatLengthJS_natCast, hdisp]
  simp only [importRecordOfLine]
  rw [splitCSV_exportRow d hd r hr]
  rw [show (importedCellOf d (coverCell r) ::
        [r.track_name, r.artist, r.album_artist, r.album_name,
         numCell r.year, numCell r.disc_number, numCell r.track_number,
         r.genre, r.composer, r.lyricist, r.publisher, r.language, r.comment,
         numCell r.rating, r.length_display,
         numCell r.bpm, numCell r.bitrate, numCell r.sample_rate,
         r.copyright, r.isrc] : List Str)
      = [importedCellOf d (coverCell r), r.track_name, r.artist, r.album_artist, r.album_name,
         numCell r.year, numCell r.disc_number, numCell r.track_number,
         r.genre, r.composer, r.lyricist, r.publisher, r.language, r.comment,
         numCell r.rating, r.length_display,
         numCell r.bpm, numCell r.bitrate, numCell r.sample_rate,
         r.copyright, r.isrc] from rfl]
  rw [applyVals_full]
  unfold coreAgree
  exact ⟨hr.tn.1, hr.ar.1, hr.aa.1, hr.al.1, hr.ge.1, hr.cm.1, hr.ly.1,
    hr.pb.1, hr.lg.1, hr.co.1, hr.cp.1, hr.ic.1,
    numCell_roundtrip r.year, numCell_roundtrip r.disc_number,
    numCell_roundtrip r.track_number, numCell_roundtrip r.rating,
    numCell_roundtrip r.bpm, numCell_roundtrip r.bitrate,
    numCell_roundtrip r.sample_rate, hlength, hld⟩

set_option maxHeartbeats 3200000 in
theorem importRow_trimmed (d : Char) (hd : D4 d) (r : Record) (hr : GoodRecord r) :
    coreAgree r (importRecordOfLine defaultColumns (allKeys.map some) d
      (dropTrailWs (exportRow d allKeys r))) := by
  have hstable := cell_trim_stable d hd r hr
  have hnonws : isWsChar d = false ∨ d = '\t' := by
    rcases hd with h | h | h | h <;> subst h
    · exact Or.inl rfl
    · exact Or.inr rfl
    · exact Or.inl rfl
    · exact Or.inl rfl
  rcases hnonws with hnw | htab
  · have hfix : dropTrailWs (exportRow d allKeys r) = exportRow d allKeys r := by
      rw [exportRow_eq]
      exact dropTrailWs_joinCells_nonws d hnw _ hstable
    rw [hfix]
    exact importRow_untrimmed d hd r hr
  · subst htab
    obtain ⟨n, hlen, hdisp⟩ := hr.len
    have hlength : parseLengthCell (trimc r.length_display) = r.length := by
      rw [hdisp, trimc_formatLengthSpec, parseLengthCell_formatSpec, hlen]
    have hld : formatLengthJS (parseLengthCell (trimc r.length_display)) = r.length_display := by
      rw [hlength, hlen, formatLengthJS_natCast, hdisp]
    have hrow : dropTrailWs (exportRow '\t' allKeys r)
        = joinCells '\t' ((dropTrailEmpties (cellsOf r)).map (escapeCSVc '\t')) := by
      rw [exportRow_eq, dropTrailWs_joinCells_ws '\t' (by decide) _ hstable,
        dropTrailEmpties_map_escape]
    obtain ⟨pad, hsplitp, hpad⟩ := dropTrailEmpties_decomp (cellsOf r)
    obtain ⟨m, hmeq⟩ : ∃ m, (dropTrailEmpties (cellsOf r)).length = m :=
      ⟨(dropTrailEmpties (cellsOf r)).length, rfl⟩
    have hlen21 : (cellsOf r).length = 21 := by simp [cellsOf]
    have htake : dropTrailEmpties (cellsOf r) = (cellsOf r).take m := by
      have h := List.take_left (dropTrailEmpties (cellsOf r)) pad
      rw [hmeq] at h
      rw [← hsplitp] at h
      exact h.symm
    have hpaddrop : pad = (cellsOf r).drop m := by
      have h := List.drop_left (dropTrailEmpties (cellsOf r)) pad
      rw [hmeq] at h
      rw [← hsplitp] at h
      exact h.symm
    have hlensum : 21 = m + pad.length := by
      have := congrArg List.length hsplitp
      rw [hlen21, List.length_append, hmeq] at this
      exact this
    have hmle : m ≤ 21 := by omega
    have hm16 : 16 ≤ m := by
      by_contra hlt
      push_neg at hlt
      have hdd : ((cellsOf r).drop m).drop (15 - m) = (cellsOf r).drop 15 := by
        rw [List.drop_drop]
        congr 1
        omega
      have h1 : r.length_display ∈ ((cellsOf r).drop m).drop (15 - m) := by
        rw [hdd]
        rw [show (cellsOf r).drop 15
            = [r.length_display, numCell r.bpm, numCell r.bitrate,
               numCell r.sample_rate, r.copyright, r.isrc] from rfl]
        simp
      have hmem : r.length_display ∈ pad := by
        rw [hpaddrop]
        exact List.drop_subset _ _ h1
      have := hpad _ hmem
      rw [hdisp] at this
      exact formatLengthSpec_ne_nil n this
    have hkne : dropTrailEmpties (cellsOf r) ≠ [] := by
      intro h
      rw [h] at hmeq
      simp at hmeq
      omega
    simp only [importRecordOfLine]
    rw [hrow, splitCSV_join '\t' (by decide) _ hkne, htake, List.map_take,
      cells_parsed '\t' (Or.inr (Or.inl rfl)) r hr]
    interval_cases m
    · -- 16 cells kept: bpm, bitrate, sample_rate, copyright, isrc defaulted
      have hp : pad = [numCell r.bpm, numCell r.bitrate, numCell r.sample_rate,
          r.copyright, r.isrc] := by
        rw [hpaddrop]
        simp [cellsOf]
      have h1 := numCell_eq_nil r.bpm (hpad _ (by rw [hp]; simp))
      have h2 := numCell_eq_nil r.bitrate (hpad _ (by rw [hp]; simp))
      have h3 := numCell_eq_nil r.sample_rate (hpad _ (by rw [hp]; simp))
      have h4 : r.copyright = [] := hpad _ (by rw [hp]; simp)
      have h5 : r.isrc = [] := hpad _ (by rw [hp]; simp)
      rw [show ((importedCellOf '\t' (coverCell r) ::
        [r.track_name, r.artist, r.album_artist, r.album_name,
         numCell r.year, numCell r.disc_number, numCell r.track_number,
         r.genre, r.composer, r.lyricist, r.publisher, r.language, r.comment,
         numCell r.rating, r.length_display,
         numCell r.bpm, numCell r.bitrate, numCell r.sample_rate,
         r.copyright, r.isrc] : List Str).take 16)
        = [importedCellOf '\t' (coverCell r), r.track_name, r.artist, r.album_artist,
           r.album_name, numCell r.year, numCell r.disc_number, numCell r.track_number,
           r.genre, r.composer, r.lyricist, r.publisher, r.language, r.comment,
           numCell r.rating, r.length_display] from rfl]
      rw [applyVals_take16]
      unfold coreAgree
      exact ⟨hr.tn.1, hr.ar.1, hr.aa.1, hr.al.1, hr.ge.1, hr.cm.1, hr.ly.1,
        hr.pb.1, hr.lg.1, hr.co.1, h4.symm, h5.symm,
        numCell_roundtrip r.year, numCell_roundtrip r.disc_number,
        numCell_roundtrip r.track_number, numCell_roundtrip r.rating,
        h1.symm, h2.symm, h3.symm, hlength, hld⟩
    · -- 17 cells kept
      have hp : pad = [numCell r.bitrate, numCell r.sample_rate,
          r.copyright, r.isrc] := by
        rw [hpaddrop]
        simp [cellsOf]
      have h2 := numCell_eq_nil r.bitrate (hpad _ (by rw [hp]; simp))
      have h3 := numCell_eq_nil r.sample_rate (hpad _ (by rw [hp]; simp))
      have h4 : r.copyright = [] := hpad _ (by rw [hp]; simp)
      have h5 : r.isrc = [] := hpad _ (by rw [hp]; simp)
      rw [show ((importedCellOf '\t' (coverCell r) ::
        [r.track_name, r.artist, r.album_artist, r.album_name,
         numCell r.year, numCell r.disc_number, numCell r.track_number,
         r.genre, r.composer, r.lyricist, r.publisher, r.language, r.comment,
         numCell r.rating, r.length_display,
         numCell r.bpm, numCell r.bitrate, numCell r.sample_rate,
         r.copyright, r.isrc] : List Str).take 17)
        = [importedCellOf '\t' (coverCell r), r.track_name, r.artist, r.album_artist,
           r.album_name, numCell r.year, numCell r.disc_number, numCell r.track_number,
           r.genre, r.composer, r.lyricist, r.publisher, r.language, r.comment,
           numCell r.rating, r.length_display, numCell r.bpm] from rfl]
      rw [applyVals_take17]
      unfold coreAgree
      exact ⟨hr.tn.1, hr.ar.1, hr.aa.1, hr.al.1, hr.ge.1, hr.cm.1, hr.ly.1,
        hr.pb.1, hr.lg.1, hr.co.1, h4.symm, h5.symm,
        numCell_roundtrip r.year, numCell_roundtrip r.disc_number,
        numCell_roundtrip r.track_number, numCell_roundtrip r.rating,
        numCell_roundtrip r.bpm, h2.symm, h3.symm, hlength, hld⟩
    · -- 18 cells kept
      have hp : pad = [numCell r.sample_rate, r.copyright, r.isrc] := by
        rw [hpaddrop]
        simp [cellsOf]
      have h3 := numCell_eq_nil r.sample_rate (hpad _ (by rw [hp]; simp))
      have h4 : r.copyright = [] := hpad _ (by rw [hp]; simp)
      have h5 : r.isrc = [] := hpad _ (by rw [hp]; simp)
      rw [show ((importedCellOf '\t' (coverCell r) ::
        [r.track_name, r.artist, r.album_artist, r.album_name,
         numCell r.year, numCell r.disc_number, numCell r.track_number,
         r.genre, r.composer, r.lyricist, r.publisher, r.language, r.comment,
         numCell r.rating, r.length_display,
         numCell r.bpm, numCell r.bitrate, numCell r.sample_rate,
         r.copyright, r.isrc] : List Str).take 18)
        = [importedCellOf '\t' (coverCell r), r.track_name, r.artist, r.album_artist,
           r.album_name, numCell r.year, numCell r.disc_number, numCell r.track_number,
           r.genre, r.composer, r.lyricist, r.publisher, r.language, r.comment,
           numCell r.rating, r.length_display, numCell r.bpm, numCell r.bitrate] from rfl]
      rw [applyVals_take18]
      unfold coreAgree
      exact ⟨hr.tn.1, hr.ar.1, hr.aa.1, hr.al.1, hr.ge.1, hr.cm.1, hr.ly.1,
        hr.pb.1, hr.lg.1, hr.co.1, h4.symm, h5.symm,
        numCell_roundtrip r.year, numCell_roundtrip r.disc_number,
        numCell_roundtrip r.track_number, numCell_roundtrip r.rating,
        numCell_roundtrip r.bpm, numCell_roundtrip r.bitrate, h3.symm, hlength, hld⟩
    · -- 19 cells kept
      have hp : pad = [r.copyright, r.isrc] := by
        rw [hpaddrop]
        simp [cellsOf]
      have h4 : r.copyright = [] := hpad _ (by rw [hp]; simp)
      have h5 : r.isrc = [] := hpad _ (by rw [hp]; simp)
      rw [show ((importedCellOf '\t' (coverCell r) ::
        [r.track_name, r.artist, r.album_artist, r.album_name,
         numCell r.year, numCell r.disc_number, numCell r.track_number,
         r.genre, r.composer, r.lyricist, r.publisher, r.language, r.comment,
         numCell r.rating, r.length_display,
         numCell r.bpm, numCell r.bitrate, numCell r.sample_rate,
         r.copyright, r.isrc] : List Str).take 19)
        = [importedCellOf '\t' (coverCell r), r.track_name, r.artist, r.album_artist,
           r.album_name, numCell r.year, numCell r.disc_number, numCell r.track_number,
           r.genre, r.composer, r.lyricist, r.publisher, r.language, r.comment,
           numCell r.rating, r.length_display, numCell r.bpm, numCell r.bitrate,
           numCell r.sample_rate] from rfl]
      rw [applyVals_take19]
      unfold coreAgree
      exact ⟨hr.tn.1, hr.ar.1, hr.aa.1, hr.al.1, hr.ge.1, hr.cm.1, hr.ly.1,
        hr.pb.1, hr.lg.1, hr.co.1, h4.symm, h5.symm,
        numCell_roundtrip r.year, numCell_roundtrip r.disc_number,
        numCell_roundtrip r.track_number, numCell_roundtrip r.rating,
        numCell_roundtrip r.bpm, numCell_roundtrip r.bitrate,
        numCell_roundtrip r.sample_rate, hlength, hld⟩
    · -- 20 cells kept
      have hp : pad = [r.isrc] := by
        rw [hpaddrop]
        simp [cellsOf]
      have h5 : r.isrc = [] := hpad _ (by rw [hp]; simp)
      rw [show ((importedCellOf '\t' (coverCell r) ::
        [r.track_name, r.artist, r.album_artist, r.album_name,
         numCell r.year, numCell r.disc_number, numCell r.track_number,
         r.genre, r.composer, r.lyricist, r.publisher, r.language, r.comment,
         numCell r.rating, r.length_display,
         numCell r.bpm, numCell r.bitrate, numCell r.sample_rate,
         r.copyright, r.isrc] : List Str).take 20)
        = [importedCellOf '\t' (coverCell r), r.track_name, r.artist, r.album_artist,
           r.album_name, numCell r.year, numCell r.disc_number, numCell r.track_number,
           r.genre, r.composer, r.lyricist, r.publisher, r.language, r.comment,
           numCell r.rating, r.length_display, numCell r.bpm, numCell r.bitrate,
           numCell r.sample_rate, r.copyright] from rfl]
      rw [applyVals_take20]
      unfold coreAgree
      exact ⟨hr.tn.1, hr.ar.1, hr.aa.1, hr.al.1, hr.ge.1, hr.cm.1, hr.ly.1,
        hr.pb.1, hr.lg.1, hr.co.1, hr.cp.1, h5.symm,
        numCell_roundtrip r.year, numCell_roundtrip r.disc_number,
        numCell_roundtrip r.track_number, numCell_roundtrip r.rating,
        numCell_roundtrip r.bpm, numCell_roundtrip r.bitrate,
        numCell_roundtrip r.sample_rate, hlength, hld⟩
    · -- all 21 cells kept
      rw [show ((importedCellOf '\t' (coverCell r) ::
        [r.track_name, r.artist, r.album_artist, r.album_name,
         numCell r.year, numCell r.disc_number, numCell r.track_number,
         r.genre, r.composer, r.lyricist, r.publisher, r.language, r.comment,
         numCell r.rating, r.length_display,
         numCell r.bpm, numCell r.bitrate, numCell r.sample_rate,
         r.copyright, r.isrc] : List Str).take 21)
        = [importedCellOf '\t' (coverCell r), r.track_name, r.artist, r.album_artist,
           r.album_name, numCell r.year, numCell r.disc_number, numCell r.track_number,
           r.genre, r.composer, r.lyricist, r.publisher, r.language, r.comment,
           numCell r.rating, r.length_display, numCell r.bpm, numCell r.bitrate,
           numCell r.sample_rate, r.copyright, r.isrc] from rfl]
      rw [applyVals_full]
      unfold coreAgree
      exact ⟨hr.tn.1, hr.ar.1, hr.aa.1, hr.al.1, hr.ge.1, hr.cm.1, hr.ly.1,
        hr.pb.1, hr.lg.1, hr.co.1, hr.cp.1, hr.ic.1,
        numCell_roundtrip r.year, numCell_roundtrip r.disc_number,
        numCell_roundtrip r.track_number, numCell_roundtrip r.rating,
        numCell_roundtrip r.bpm, numCell_roundtrip r.bitrate,
        numCell_roundtrip r.sample_rate, hlength, hld⟩

theorem dropTrailWs_append2 (X Y : Str) (h : dropTrailWs Y ≠ []) :
    dropTrailWs (X ++ Y) = X ++ dropTrailWs Y := by
  have hne : (Y.reverse.dropWhile isWsChar).isEmpty = false := by
    cases hb : Y.reverse.dropWhile isWsChar with
    | nil =>
      exfalso
      apply h
      rw [dropTrailWs, hb]
      rfl
    | cons a t => rfl
  rw [dropTrailWs, List.reverse_append, List.dropWhile_append, hne]
  simp [dropTrailWs]

theorem dropTrailWs_joinCells_last (sep : Char) (rows' : List Str) (last : Str)
    (h : dropTrailWs last ≠ []) :
    dropTrailWs (joinCells sep (rows' ++ [last]))
      = joinCells sep (rows' ++ [dropTrailWs last]) := by
  cases rows' with
  | nil =>
    show dropTrailWs (joinCells sep [last]) = joinCells sep [dropTrailWs last]
    show dropTrailWs last = dropTrailWs last
    rfl
  | cons x rs =>
    rw [joinCells_append_last sep last rs x, joinCells_append_last sep (dropTrailWs last) rs x]
    rw [show (joinCells sep (x :: rs) ++ sep :: last : Str)
        = (joinCells sep (x :: rs) ++ [sep]) ++ last by simp]
    rw [dropTrailWs_append2 _ last h]
    simp

theorem dropWhileWs_idem (l : Str) :
    (l.dropWhile isWsChar).dropWhile isWsChar = l.dropWhile isWsChar := by
  cases hb : l.dropWhile isWsChar with
  | nil => rfl
  | cons a t =>
    have ha := dropWhileWs_head l a t hb
    rw [List.dropWhile_cons, if_neg (by simp [ha])]

theorem dropTrailWs_idem (l : Str) : dropTrailWs (dropTrailWs l) = dropTrailWs l := by
  rw [dropTrailWs, dropTrailWs, List.reverse_reverse, dropWhileWs_idem]

theorem mem_of_mem_dropTrailWs (l : Str) (c : Char) (h : c ∈ dropTrailWs l) : c ∈ l := by
  obtain ⟨w, hw, _⟩ := dropTrailWs_decomp l
  rw [hw]
  exact List.mem_append_left _ h

theorem colon_mem_formatLengthSpec (n : ℕ) : ':' ∈ formatLengthSpec n := by
  rw [formatLengthSpec]
  by_cases h : n / 3600 = 0
  · rw [if_pos h]
    simp
  · rw [if_neg h]
    simp

theorem row_has_colon (d : Char) (r : Record) (hr : GoodRecord r) :
    ':' ∈ exportRow d allKeys r := by
  obtain ⟨n, hlen, hdisp⟩ := hr.len
  rw [exportRow_eq]
  apply mem_joinCells_of_cell d _ (escapeCSVc d r.length_display)
  · rw [List.mem_map]
    exact ⟨r.length_display, by simp [cellsOf], rfl⟩
  · apply mem_escapeCSVc_of
    rw [hdisp]
    exact colon_mem_formatLengthSpec n

theorem dropLeadWs_eq_self_of_head (l : Str) (c : Char) (hc : l.head? = some c)
    (hw : isWsChar c = false) : dropLeadWs l = l := by
  cases l with
  | nil => simp at hc
  | cons a t =>
    have ha : a = c := by simpa using hc
    subst ha
    rw [dropLeadWs, List.dropWhile_cons, if_neg (by simp [hw])]

theorem trimc_ne_nil_of_dropTrail_ne (l : Str) (h : dropTrailWs l ≠ []) :
    ∀ x, x = dropTrailWs l → trimc x ≠ [] := by
  intro x hx
  obtain ⟨c', a, hca, hans⟩ := ends_nonws_of_stable x (by rw [hx, dropTrailWs_idem]) (hx ▸ h)
  exact trimc_ne_nil_of_mem x a (by rw [hca]; simp) hans

/-- The export header line for the full catalog. -/
def hdrLine (d : Char) : Str :=
  joinCells d (allKeys.map (fun k =>
    match defaultColumns.find? (fun c => c.key == k) with
    | some c => escapeCSVc d c.label.toList
    | none => []))

theorem exportContentOf_eq (d : Char) (data : List Record) :
    exportContentOf d allKeys defaultColumns data
      = hdrLine d ++ '\n' :: joinCells '\n' (data.map (exportRow d allKeys)) := rfl

theorem hdr_facts (d : Char) (hd : D4 d) :
    (hdrLine d).head? = some 'C' ∧ '\n' ∉ hdrLine d ∧
      buildKeyMap defaultColumns ((splitCSV d (hdrLine d)).map trimc)
        = allKeys.map some := by
  rcases hd with h | h | h | h <;> subst h <;>
    exact ⟨by decide, by decide, by decide⟩

theorem parseImport_cons (e : RegexEngine) (st : GridState) (text : Str) (d : Char)
    (header : Str) (body : List Str)
    (hl : splitOnC '\n' (trimc text) = header :: body) (hb : body ≠ []) :
    parseImport e st text d =
      (processData e
        { st with
          audioData :=
            (body.filter (fun l => !(trimc l).isEmpty)).map
              (importRecordOfLine st.columns
                (buildKeyMap st.columns ((splitCSV d header).map trimc)) d) },
       none) := by
  simp only [parseImport]
  rw [hl]
  rw [if_neg (by cases body with | nil => exact absurd rfl hb | cons x xs => simp)]

theorem forall2_init (d : Char) (hd : D4 d) :
    ∀ Rinit : List Record, (∀ r ∈ Rinit, GoodRecord r) →
      List.Forall₂ coreAgree Rinit
        (Rinit.map (fun r => importRecordOfLine defaultColumns (allKeys.map some) d
          (exportRow d allKeys r))) := by
  intro Rinit
  induction Rinit with
  | nil => intro _; exact List.Forall₂.nil
  | cons r rs ih =>
    intro h
    exact List.Forall₂.cons (importRow_untrimmed d hd r (h r (by simp)))
      (ih (fun x hx => h x (by simp [hx])))

/-- C1 (amended): exporting a non-empty visible record set with all
columns selected and importing the produced text with the same supported
delimiter reproduces every guaranteed text, numeric and duration field of
every record, in order, provided each record's text fields are
trim-stable, newline-free and not non-empty all-quotes strings, its cover
path is trim-stable and newline-free, and its duration is a whole number
of seconds rendered by the duration formatter. -/
theorem claim_C1 (e : RegexEngine) (st : GridState) (d : Char) (hd : D4 d)
    (hcols : st.columns = defaultColumns) (R : List Record) (hR : R ≠ [])
    (hvis : st.visibleData = R) (hgood : ∀ r ∈ R, GoodRecord r) :
    ∃ content : Str,
      performExport st allKeys d = (st, none, some content) ∧
      (parseImport e st content d).2 = none ∧
      List.Forall₂ coreAgree R ((parseImport e st content d).1.audioData) := by
  obtain ⟨hhead, hnl, hkm⟩ := hdr_facts d hd
  rcases List.eq_nil_or_concat R with hnil | ⟨Rinit, rlast, hRc⟩
  · exact absurd hnil hR
  rw [List.concat_eq_append] at hRc
  subst hRc
  have hglast : GoodRecord rlast := hgood rlast (by simp)
  have hginit : ∀ r ∈ Rinit, GoodRecord r := fun r hr => hgood r (by simp [hr])
  have hlastcolon : ':' ∈ exportRow d allKeys rlast := row_has_colon d rlast hglast
  have hlastne : dropTrailWs (exportRow d allKeys rlast) ≠ [] :=
    dropTrailWs_ne_nil_of_mem _ ':' hlastcolon (by decide)
  have hmapsplit : (Rinit ++ [rlast]).map (exportRow d allKeys)
      = Rinit.map (exportRow d allKeys) ++ [exportRow d allKeys rlast] := by simp
  have hcontent : exportContentOf d allKeys defaultColumns (Rinit ++ [rlast])
      = hdrLine d ++ '\n' :: joinCells '\n'
          (Rinit.map (exportRow d allKeys) ++ [exportRow d allKeys rlast]) := by
    rw [exportContentOf_eq, hmapsplit]
  have hheadc : (hdrLine d ++ '\n' :: joinCells '\n'
      (Rinit.map (exportRow d allKeys) ++ [exportRow d allKeys rlast])).head?
        = some 'C' := by
    cases hx : hdrLine d with
    | nil =>
      rw [hx] at hhead
      simp at hhead
    | cons a t =>
      rw [hx] at hhead
      simp at hhead
      simp [hx, hhead]
  have hjoincolon : ':' ∈ joinCells '\n'
      (Rinit.map (exportRow d allKeys) ++ [exportRow d allKeys rlast]) := by
    exact mem_joinCells_of_cell '\n' _ (exportRow d allKeys rlast) (by simp) ':' hlastcolon
  have htrim : trimc (hdrLine d ++ '\n' :: joinCells '\n'
      (Rinit.map (exportRow d allKeys) ++ [exportRow d allKeys rlast]))
      = hdrLine d ++ '\n' :: joinCells '\n'
          (Rinit.map (exportRow d allKeys) ++ [dropTrailWs (exportRow d allKeys rlast)]) := by
    rw [trimc, dropLeadWs_eq_self_of_head _ 'C' hheadc (by decide)]
    rw [show (hdrLine d ++ '\n' :: joinCells '\n'
          (Rinit.map (exportRow d allKeys) ++ [exportRow d allKeys rlast]) : Str)
        = (hdrLine d ++ ['\n']) ++ joinCells '\n'
            (Rinit.map (exportRow d allKeys) ++ [exportRow d allKeys rlast]) by simp]
    rw [dropTrailWs_append2 _ _
      (dropTrailWs_ne_nil_of_mem _ ':' hjoincolon (by decide))]
    rw [dropTrailWs_joinCells_last '\n' _ _ hlastne]
    simp
  have hrowsnl : ∀ l ∈ Rinit.map (exportRow d allKeys)
      ++ [dropTrailWs (exportRow d allKeys rlast)], '\n' ∉ l := by
    intro l hl
    rcases List.mem_append.mp hl with h1 | h1
    · rw [List.mem_map] at h1
      obtain ⟨r, hr, hrl⟩ := h1
      subst hrl
      exact row_no_newline d hd r (hginit r hr)
    · simp at h1
      subst h1
      intro hm
      exact row_no_newline d hd rlast hglast (mem_of_mem_dropTrailWs _ _ hm)
  have hlines : splitOnC '\n' (trimc (exportContentOf d allKeys defaultColumns (Rinit ++ [rlast])))
      = hdrLine d :: (Rinit.map (exportRow d allKeys)
          ++ [dropTrailWs (exportRow d allKeys rlast)]) := by
    rw [hcontent, htrim, splitOnC_append '\n' (hdrLine d) _,
      splitOnC_of_not_mem '\n' (hdrLine d) hnl,
      splitOnC_joinCells '\n' _ (by simp) hrowsnl]
    rfl
  have hbodyne : Rinit.map (exportRow d allKeys)
      ++ [dropTrailWs (exportRow d allKeys rlast)] ≠ [] := by simp
  have hparse := parseImport_cons e st
    (exportContentOf d allKeys defaultColumns (Rinit ++ [rlast])) d (hdrLine d) _ hlines hbodyne
  have hfilter : (Rinit.map (exportRow d allKeys)
      ++ [dropTrailWs (exportRow d allKeys rlast)]).filter
        (fun l => !(trimc l).isEmpty)
      = Rinit.map (exportRow d allKeys) ++ [dropTrailWs (exportRow d allKeys rlast)] := by
    rw [List.filter_eq_self]
    intro l hl
    rcases List.mem_append.mp hl with h1 | h1
    · rw [List.mem_map] at h1
      obtain ⟨r, hr, hrl⟩ := h1
      subst hrl
      have := trimc_ne_nil_of_mem _ ':' (row_has_colon d r (hginit r hr)) (by decide)
      cases hx : trimc (exportRow d allKeys r)
      · exact absurd hx this
      · simp
    · simp at h1
      subst h1
      have := trimc_ne_nil_of_dropTrail_ne _ hlastne _ rfl
      cases hx : trimc (dropTrailWs (exportRow d allKeys rlast))
      · exact absurd hx this
      · simp
  rw [hfilter, hcols, hkm] at hparse
  refine ⟨exportContentOf d allKeys defaultColumns (Rinit ++ [rlast]), ?_, ?_, ?_⟩
  · rw [show performExport st allKeys d
        = (st, none, some (exportContentOf d allKeys st.columns st.visibleData)) from rfl,
      hcols, hvis]
  · rw [hparse]
  · rw [hparse, List.map_append]
    refine List.rel_append ?_ ?_
    · rw [List.map_map]
      exact forall2_init d hd Rinit hginit
    · exact List.Forall₂.cons (importRow_trimmed d hd rlast hglast) List.Forall₂.nil

/-- A record whose comment is a lone double quote: legal data the
export/import cycle corrupts. -/
def badRecord : Record :=
  { sampleRecord with comment := ['"'], length := 0, length_display := str "0:00" }

def badGrid : GridState :=
  { audioData := [badRecord]
  , columns := defaultColumns
  , currentSort := { key := none, asc := true }
  , activeFilters := []
  , visibleData := [badRecord] }

set_option maxRecDepth 4000 in
/-- C1 counterexample: with a comment of `"` (a non-empty all-quotes
field), exporting with all columns and the comma delimiter and importing
the result yields a record whose comment is `""`, not `"` — the
unqualified round-trip claim fails. -/
theorem claim_C1_counterexample :
    ((parseImport rejectAllEngine badGrid
        ((performExport badGrid allKeys ',').2.2.getD []) ',').1.audioData.map
      (fun r => r.comment)) ≠ [badRecord].map (fun r => r.comment) := by
  decide

theorem claim_C1_witness :
    ∃ content : Str,
      performExport sampleGrid allKeys ',' = (sampleGrid, none, some content) ∧
      (parseImport rejectAllEngine sampleGrid content ',').2 = none ∧
      List.Forall₂ coreAgree [sampleRecord]
        ((parseImport rejectAllEngine sampleGrid content ',').1.audioData) :=
  claim_C1 rejectAllEngine sampleGrid ',' (Or.inl rfl) rfl [sampleRecord]
    (by simp) rfl
    (by
      intro r hr
      simp at hr
      subst hr
      exact ⟨⟨by decide, by decide, by decide⟩, ⟨by decide, by decide, by decide⟩,
        ⟨by decide, by decide, by decide⟩, ⟨by decide, by decide, by decide⟩,
        ⟨by decide, by decide, by decide⟩, ⟨by decide, by decide, by decide⟩,
        ⟨by decide, by decide, by decide⟩, ⟨by decide, by decide, by decide⟩,
        ⟨by decide, by decide, by decide⟩, ⟨by decide, by decide, by decide⟩,
        ⟨by decide, by decide, by decide⟩, ⟨by decide, by decide, by decide⟩,
        (by intro s h; cases h), ⟨61, by decide, by decide⟩⟩)
